import Mathlib

/-! STM32L4x6 ADC lower-half driver, arch/arm/src/stm32/stm32l4x6xx_adc.c:
a shallow embedding of the driver and theorems about it.

* `uint32_t` registers are natural numbers; every register read and every
  register write is reduced modulo `2 ^ 32`, `uint8_t` fields modulo `2 ^ 8`.
* The register window of one block is a record with one field per register
  offset the driver touches (`Regs`); `adc_getreg` / `adc_putreg` select the
  field by the offset name (`Reg`).
* The macros of the chip and board headers (bit masks, shifts, command codes,
  errno values) are not part of the driver file; they are the fields of
  `Defs`, and every definition takes them as a parameter.
* Everything the hardware does on its own is a parameter as well (`Hw`): the
  register contents after the RCC reset and the way the hardware moves the
  control and status registers while the driver busy-waits.
* Every register write and every `adc_receive` call is appended to a trace in
  the state, so that "writes no register" and "delivers exactly these samples"
  are statements about the trace.
* Intermediate `uint32_t` values of purely bitwise expressions are reduced
  when they are stored, shifted or compared.
* `avdbg` / `alldbg` / `adbg` output, `irqsave` / `irqrestore`,
  `up_udelay` apart from the hardware progress during the delay, and
  `up_enable_irq` have no effect on the modelled state and are left out.
-/

namespace Stm32Adc

/-! ## Header constants and build configuration -/

/-- The values of the preprocessor macros and enumerators the driver takes from
headers outside the driver file. -/
structure Defs where
  ADC_INT_ADRDY : Nat
  ADC_INT_EOC : Nat
  ADC_INT_AWD1 : Nat
  ADC_INT_MASK : Nat
  ADC_DR_MASK : Nat
  ADC_CR_ADEN : Nat
  ADC_CR_ADSTART : Nat
  ADC_CR_ADSTP : Nat
  ADC_CR_ADVREGEN : Nat
  ADC_CR_DEEPPWD : Nat
  ADC_CR_ADCAL : Nat
  ADC_CFGR_AWD1EN : Nat
  ADC_CFGR_CONT : Nat
  ADC_CFGR_OVRMOD : Nat
  ADC_TR1_LT_MASK : Nat
  ADC_TR1_LT_SHIFT : Nat
  ADC_TR1_HT_MASK : Nat
  ADC_TR1_HT_SHIFT : Nat
  ADC_SQR1_L_SHIFT : Nat
  RCC_AHB2RSTR_ADCRST : Nat
  ANIOC_TRIGGER : Int
  ANIOC_WDOG_UPPER : Int
  ANIOC_WDOG_LOWER : Int
  PM_NORMAL : Int
  PM_IDLE : Int
  EBUSY : Int
  EINVAL : Int
  ENOTTY : Int
  deriving DecidableEq

/-- The `CONFIG_*` switches the driver file tests. -/
structure Config where
  CONFIG_STM32_ADC1 : Bool
  CONFIG_STM32_ADC2 : Bool
  CONFIG_STM32_ADC3 : Bool
  CONFIG_PM : Bool
  CONFIG_STM32_ADC_SWTRIG : Bool
  CONFIG_DEBUG : Bool
  deriving DecidableEq

/-- The NuttX success status. -/
def OK : Int := 0

/-- Number of entries of `chanlist`. -/
def ADC_MAX_SAMPLES : Nat := 16

/-! ## Machine integers -/

/-- Reduction to an unsigned 32-bit value. -/
def u32 (x : Nat) : Nat := x % 2 ^ 32

/-- Reduction to an unsigned 8-bit value. -/
def u8 (x : Nat) : Nat := x % 2 ^ 8

/-- The bitwise complement `~x` of a 32-bit value. -/
def not32 (x : Nat) : Nat := (2 ^ 32 - 1) ^^^ u32 x

/-- Conversion of a 32-bit pattern to `int32_t` (two's complement). -/
def toInt32 (x : Nat) : Int :=
  if u32 x < 2 ^ 31 then (u32 x : Int) else (u32 x : Int) - 2 ^ 32

/-- Conversion of an `int` to `uint32_t` / `size_t`. -/
def ofInt32 (x : Int) : Nat := (x % 2 ^ 32).toNat

/-! ## Data model -/

/-- Register offsets used by the driver (`STM32_ADC_*_OFFSET`). -/
inductive Reg where
  | ISR | IER | CR | CFGR | SMPR1 | SMPR2 | TR1 | SQR1 | SQR2 | SQR3 | SQR4 | DR
  deriving DecidableEq, Repr

/-- The register window of one ADC block. -/
structure Regs where
  ISR : Nat
  IER : Nat
  CR : Nat
  CFGR : Nat
  SMPR1 : Nat
  SMPR2 : Nat
  TR1 : Nat
  SQR1 : Nat
  SQR2 : Nat
  SQR3 : Nat
  SQR4 : Nat
  DR : Nat
  deriving DecidableEq, Repr

/-- Observable actions: a register write of the block, a write of the shared
RCC reset register, an `adc_receive` up-call. -/
inductive Ev where
  | putreg (r : Reg) (value : Nat)
  | putrcc (value : Nat)
  | adc_receive (ch : Nat) (data : Int)
  deriving DecidableEq, Repr

/-- State of one ADC block (`struct stm32_dev_s`; the handler pointer and the
power-management callback record carry no data of their own). -/
structure stm32_dev_s where
  irq : Nat
  nchannels : Nat
  intf : Nat
  current : Nat
  base : Nat
  chanlist : List Nat
  deriving DecidableEq, Repr

/-- One block together with its register window, the shared RCC reset register
and the trace of observable actions. -/
structure State where
  priv : stm32_dev_s
  regs : Regs
  rcc : Nat
  trace : List Ev
  deriving DecidableEq, Repr

/-- What the hardware does by itself. -/
structure Hw where
  /-- Register contents of the block when it is taken through the RCC reset. -/
  reset : Regs
  /-- Control register as the hardware leaves it between two polls. -/
  crNext : Regs → Nat
  /-- Status register as the hardware leaves it between two polls. -/
  isrNext : Regs → Nat

/-- One step of hardware progress: only the control and the status register
move while the driver waits. -/
def Hw.tick (hw : Hw) (r : Regs) : Regs :=
  { r with CR := u32 (hw.crNext r), ISR := u32 (hw.isrNext r) }

/-- Outcome of a driver entry point that may not return. -/
inductive Outcome (α : Type) where
  | ret (a : α)
  | assert_failed
  | hang
  deriving DecidableEq, Repr

/-! ## Register access -/

/-- Field of the register window at an offset. -/
def Regs.get (r : Regs) : Reg → Nat
  | .ISR => r.ISR
  | .IER => r.IER
  | .CR => r.CR
  | .CFGR => r.CFGR
  | .SMPR1 => r.SMPR1
  | .SMPR2 => r.SMPR2
  | .TR1 => r.TR1
  | .SQR1 => r.SQR1
  | .SQR2 => r.SQR2
  | .SQR3 => r.SQR3
  | .SQR4 => r.SQR4
  | .DR => r.DR

/-- Register window with the field at an offset replaced. -/
def Regs.set (r : Regs) (o : Reg) (v : Nat) : Regs :=
  match o with
  | .ISR => { r with ISR := v }
  | .IER => { r with IER := v }
  | .CR => { r with CR := v }
  | .CFGR => { r with CFGR := v }
  | .SMPR1 => { r with SMPR1 := v }
  | .SMPR2 => { r with SMPR2 := v }
  | .TR1 => { r with TR1 := v }
  | .SQR1 => { r with SQR1 := v }
  | .SQR2 => { r with SQR2 := v }
  | .SQR3 => { r with SQR3 := v }
  | .SQR4 => { r with SQR4 := v }
  | .DR => { r with DR := v }

/-- Read of an ADC register (`adc_getreg`). -/
def adc_getreg (s : State) (offset : Reg) : Nat :=
  u32 (s.regs.get offset)

/-- Write of an ADC register (`adc_putreg`). -/
def adc_putreg (s : State) (offset : Reg) (value : Nat) : State :=
  { s with regs := s.regs.set offset (u32 value),
           trace := s.trace ++ [Ev.putreg offset (u32 value)] }

/-- Element `i` of the 16-entry `chanlist` array. -/
def chan (priv : stm32_dev_s) (i : Nat) : Nat :=
  u8 (priv.chanlist.getD i 0)

/-! ## Power management -/

/-- Power-management callback (`pm_prepare`): a read of the control register
and a status, nothing else. -/
def pm_prepare (d : Defs) (s : State) (state : Int) : Int × State :=
  let regval := adc_getreg s .CR
  if state ≥ d.PM_IDLE ∧ regval &&& d.ADC_CR_ADSTART ≠ 0 then
    (-d.EBUSY, s)
  else
    (OK, s)

/-! ## Watchdog, conversion control, reset, enable -/

/-- Enable the analog watchdog (`adc_wdog_enable`). -/
def adc_wdog_enable (d : Defs) (s : State) : State :=
  let regval := adc_getreg s .CFGR
  let regval := regval ||| (d.ADC_CFGR_AWD1EN ||| d.ADC_CFGR_CONT ||| d.ADC_CFGR_OVRMOD)
  let s := adc_putreg s .CFGR regval
  let regval := adc_getreg s .IER
  let regval := regval ||| d.ADC_INT_AWD1
  let regval := regval &&& not32 d.ADC_INT_EOC
  adc_putreg s .IER regval

/-- Start or stop the conversion (`adc_startconv`). -/
def adc_startconv (d : Defs) (s : State) (enable : Bool) : State :=
  let regval := adc_getreg s .CR
  let regval := if enable then regval ||| d.ADC_CR_ADSTART else regval ||| d.ADC_CR_ADSTP
  adc_putreg s .CR regval

/-- Set or clear the ADC bit of the shared RCC reset register
(`adc_rccreset`).  Asserting the reset puts the reset values into the
registers of the block. -/
def adc_rccreset (d : Defs) (hw : Hw) (s : State) (reset : Bool) : State :=
  let regval := u32 s.rcc
  let regval :=
    if reset then regval ||| d.RCC_AHB2RSTR_ADCRST
    else regval &&& not32 d.RCC_AHB2RSTR_ADCRST
  { s with rcc := u32 regval,
           trace := s.trace ++ [Ev.putrcc (u32 regval)],
           regs := if reset then hw.reset else s.regs }

/-- Busy-wait `while (busy) ;` on a register the hardware moves: `n` bounds the
number of polls, `none` is a wait that did not end within the bound. -/
def adc_wait (hw : Hw) (busy : State → Bool) : Nat → State → Option State
  | 0, _ => none
  | n + 1, s =>
    if busy s then adc_wait hw busy n { s with regs := hw.tick s.regs }
    else some s

/-- The condition of the calibration wait: `ADCAL` still reads set. -/
def cal_busy (d : Defs) (s : State) : Bool :=
  decide (adc_getreg s .CR &&& d.ADC_CR_ADCAL ≠ 0)

/-- The condition of the ready wait: `ADRDY` does not read set yet. -/
def rdy_busy (d : Defs) (s : State) : Bool :=
  decide (adc_getreg s .ISR &&& d.ADC_INT_ADRDY = 0)

/-- Power up, calibrate and enable the block (`adc_enable`). -/
def adc_enable (d : Defs) (hw : Hw) (fuel : Nat) (s : State) : Option State :=
  let regval := adc_getreg s .CR
  let regval := regval &&& not32 d.ADC_CR_DEEPPWD
  let regval := regval ||| d.ADC_CR_ADVREGEN
  let s := adc_putreg s .CR regval
  -- up_udelay(20)
  let s := { s with regs := hw.tick s.regs }
  let regval := regval ||| d.ADC_CR_ADCAL
  let s := adc_putreg s .CR regval
  match adc_wait hw (cal_busy d) fuel s with
  | none => none
  | some s =>
    let regval := adc_getreg s .CR
    let regval := regval ||| d.ADC_CR_ADEN
    let s := adc_putreg s .CR regval
    adc_wait hw (rdy_busy d) fuel s

/-- Reset the block (`adc_reset`). -/
def adc_reset (d : Defs) (hw : Hw) (s : State) : State :=
  let s := adc_rccreset d hw s true
  adc_rccreset d hw s false

/-! ## Setup -/

/-- One of the four loops of `adc_setup`,
`for (...; i < priv->nchannels && i < lim; i++, offset += 6)`.  The first
argument bounds the number of iterations; the callers pass `lim - i`. -/
def sqr_loop (priv : stm32_dev_s) (lim : Nat) : Nat → Nat → Nat → Nat → Nat
  | 0, _, _, regval => regval
  | n + 1, i, offset, regval =>
    if i < priv.nchannels ∧ i < lim then
      sqr_loop priv lim n (i + 1) (offset + 6)
        (u32 (regval ||| u32 (chan priv i <<< offset)))
    else regval

/-- Configure the block (`adc_setup`); `irq_attach` is the status returned by
the interrupt controller for the attach request. -/
def adc_setup (d : Defs) (cfg : Config) (hw : Hw) (fuel : Nat) (irq_attach : Int)
    (s : State) : Outcome (Int × State) :=
  let ret := irq_attach
  if ret ≠ OK then .ret (ret, s) else
  let s := adc_reset d hw s
  let s := adc_putreg s .SMPR1 0x3fffffff
  let s := adc_putreg s .SMPR2 0x07ffffff
  if cfg.CONFIG_DEBUG = true ∧ ¬ s.priv.nchannels ≤ ADC_MAX_SAMPLES then .assert_failed else
  let regval := adc_getreg s .SQR4
  let regval := sqr_loop s.priv 16 (16 - 14) 14 0 regval
  let s := adc_putreg s .SQR4 regval
  let regval := adc_getreg s .SQR3
  let regval := sqr_loop s.priv 14 (14 - 9) 9 0 regval
  let s := adc_putreg s .SQR3 regval
  let regval := adc_getreg s .SQR2
  let regval := sqr_loop s.priv 9 (9 - 4) 4 0 regval
  let s := adc_putreg s .SQR2 regval
  let regval := adc_getreg s .SQR1
  let regval := sqr_loop s.priv 4 (4 - 0) 0 6 regval
  let regval := regval ||| u32 (u32 (s.priv.nchannels + 2 ^ 32 - 1) <<< d.ADC_SQR1_L_SHIFT)
  let s := adc_putreg s .SQR1 regval
  let s := { s with priv := { s.priv with current := 0 } }
  match adc_enable d hw fuel s with
  | none => .hang
  | some s => .ret (OK, s)

/-! ## Interrupt enable, control, interrupt service -/

/-- Enable or disable RX interrupts (`adc_rxint`). -/
def adc_rxint (d : Defs) (s : State) (enable : Bool) : State :=
  let regval := adc_getreg s .IER
  let regval := if enable then regval ||| d.ADC_INT_EOC else regval &&& not32 d.ADC_INT_MASK
  adc_putreg s .IER regval

/-- Control requests (`adc_ioctl`). -/
def adc_ioctl (d : Defs) (cfg : Config) (s : State) (cmd : Int) (arg : Nat) : Int × State :=
  if cfg.CONFIG_STM32_ADC_SWTRIG = true ∧ cmd = d.ANIOC_TRIGGER then
    (OK, adc_startconv d s true)
  else if cfg.CONFIG_STM32_ADC_SWTRIG = true ∧ cmd = d.ANIOC_WDOG_UPPER then
    let regval := adc_getreg s .TR1
    let tmp := (regval &&& d.ADC_TR1_LT_MASK) >>> d.ADC_TR1_LT_SHIFT
    if arg < tmp then (-d.EINVAL, s) else
    let regval := regval &&& not32 d.ADC_TR1_HT_MASK
    let regval := regval ||| (u32 (arg <<< d.ADC_TR1_HT_SHIFT) &&& d.ADC_TR1_HT_MASK)
    let s := adc_putreg s .TR1 regval
    (OK, adc_wdog_enable d s)
  else if cfg.CONFIG_STM32_ADC_SWTRIG = true ∧ cmd = d.ANIOC_WDOG_LOWER then
    let regval := adc_getreg s .TR1
    let tmp := (regval &&& d.ADC_TR1_HT_MASK) >>> d.ADC_TR1_HT_SHIFT
    if arg > tmp then (-d.EINVAL, s) else
    let regval := regval &&& not32 d.ADC_TR1_LT_MASK
    let regval := regval ||| (u32 (arg <<< d.ADC_TR1_LT_SHIFT) &&& d.ADC_TR1_LT_MASK)
    let s := adc_putreg s .TR1 regval
    (OK, adc_wdog_enable d s)
  else
    (-d.ENOTTY, s)

/-- Common interrupt handler (`adc_interrupt`). -/
def adc_interrupt (d : Defs) (s : State) : Int × State :=
  let adcisr := adc_getreg s .ISR
  let s :=
    if adcisr &&& d.ADC_INT_AWD1 ≠ 0 then
      -- the value read here is only printed
      adc_startconv d s false
    else s
  let s :=
    if adcisr &&& d.ADC_INT_EOC ≠ 0 then
      let value := toInt32 (adc_getreg s .DR &&& d.ADC_DR_MASK)
      let s := { s with trace := s.trace ++ [Ev.adc_receive (chan s.priv s.priv.current) value] }
      let s := { s with priv := { s.priv with current := u8 (s.priv.current + 1) } }
      if s.priv.current ≥ s.priv.nchannels then
        { s with priv := { s.priv with current := 0 } }
      else s
    else s
  (OK, s)

/-! ## Construction -/

/-- The statically allocated block states `g_adcpriv1` .. `g_adcpriv3`. -/
structure Globals where
  g_adcpriv1 : stm32_dev_s
  g_adcpriv2 : stm32_dev_s
  g_adcpriv3 : stm32_dev_s
  deriving DecidableEq, Repr

/-- Block state of interface `k`. -/
def Globals.priv (g : Globals) (k : Nat) : stm32_dev_s :=
  if k = 1 then g.g_adcpriv1 else if k = 2 then g.g_adcpriv2 else g.g_adcpriv3

/-- Globals with the block state of interface `k` replaced. -/
def Globals.setPriv (g : Globals) (k : Nat) (p : stm32_dev_s) : Globals :=
  if k = 1 then { g with g_adcpriv1 := p }
  else if k = 2 then { g with g_adcpriv2 := p }
  else { g with g_adcpriv3 := p }

/-- The array `dst` after `memcpy(dst, src, n)`: entry `i` is taken from `src`
when `i < n`.  Bytes written behind the sixteenth entry are not represented. -/
def memcpy_chanlist (dst src : List Nat) (n : Nat) : List Nat :=
  (List.range ADC_MAX_SAMPLES).map fun i => if i < n then u8 (src.getD i 0) else dst.getD i 0

/-- Initialize the ADC (`stm32_adcinitialize`).  The result is the number of
the selected device (`&g_adcdevN`) or `none` for `NULL`; `pm_register` is the
status returned by the power-management framework. -/
def stm32_adcinitialize (cfg : Config) (g : Globals) (pm_register : Int)
    (intf : Int) (chanlist : List Nat) (nchannels : Int) : Outcome (Option Nat × Globals) :=
  let dev : Option Nat :=
    if cfg.CONFIG_STM32_ADC1 = true ∧ intf = 1 then some 1
    else if cfg.CONFIG_STM32_ADC2 = true ∧ intf = 2 then some 2
    else if cfg.CONFIG_STM32_ADC3 = true ∧ intf = 3 then some 3
    else none
  match dev with
  | none => .ret (none, g)
  | some k =>
    let priv := g.priv k
    if cfg.CONFIG_DEBUG = true ∧ ¬ nchannels ≤ (ADC_MAX_SAMPLES : Int) then .assert_failed else
    let priv := { priv with nchannels := u8 (ofInt32 nchannels) }
    let priv := { priv with chanlist := memcpy_chanlist priv.chanlist chanlist (ofInt32 nchannels) }
    let g := g.setPriv k priv
    if cfg.CONFIG_PM = true ∧ pm_register ≠ OK then .ret (none, g)
    else .ret (some k, g)

/-! ## Hardware events and a reference header -/

/-- A hardware event followed by the interrupt: the hardware latches `isr` in
the status register and `dr` in the data register, then `adc_interrupt` runs. -/
def hw_event (d : Defs) (s : State) (isr dr : Nat) : State :=
  (adc_interrupt d { s with regs := { s.regs with ISR := u32 isr, DR := u32 dr } }).2

/-- Consecutive hardware events, each given by the latched status flags and
the content of the data register. -/
def hw_events (d : Defs) : State → List (Nat × Nat) → State
  | s, [] => s
  | s, e :: es => hw_events d (hw_event d s e.1 e.2) es

/-- Only the end-of-conversion flag is latched: the end-of-conversion test of
the handler succeeds and the watchdog test fails. -/
def eoc_only (d : Defs) (isr : Nat) : Prop :=
  u32 isr &&& d.ADC_INT_EOC ≠ 0 ∧ u32 isr &&& d.ADC_INT_AWD1 = 0

instance (d : Defs) (isr : Nat) : Decidable (eoc_only d isr) := by
  unfold eoc_only; exact inferInstance

/-- Modelled from the spec: the register map with named fields (section 1) and
the command and status codes live in headers that are not part of the driver
file.  These are the bit assignments of the STM32L4x6 ADC and RCC blocks and
the NuttX numbers of the status codes, for the places where a concrete header
is needed. -/
def stm32l4x6 : Defs where
  ADC_INT_ADRDY := 0x1
  ADC_INT_EOC := 0x4
  ADC_INT_AWD1 := 0x80
  ADC_INT_MASK := 0x7ff
  ADC_DR_MASK := 0xffff
  ADC_CR_ADEN := 0x1
  ADC_CR_ADSTART := 0x4
  ADC_CR_ADSTP := 0x10
  ADC_CR_ADVREGEN := 0x10000000
  ADC_CR_DEEPPWD := 0x20000000
  ADC_CR_ADCAL := 0x80000000
  ADC_CFGR_AWD1EN := 0x800000
  ADC_CFGR_CONT := 0x2000
  ADC_CFGR_OVRMOD := 0x1000
  ADC_TR1_LT_MASK := 0xfff
  ADC_TR1_LT_SHIFT := 0
  ADC_TR1_HT_MASK := 0xfff0000
  ADC_TR1_HT_SHIFT := 16
  ADC_SQR1_L_SHIFT := 0
  RCC_AHB2RSTR_ADCRST := 0x2000
  ANIOC_TRIGGER := 0x1001
  ANIOC_WDOG_UPPER := 0x1002
  ANIOC_WDOG_LOWER := 0x1003
  PM_NORMAL := 0
  PM_IDLE := 1
  EBUSY := 16
  EINVAL := 22
  ENOTTY := 25

/-- A register window with every register reading zero. -/
def zeroRegs : Regs :=
  { ISR := 0, IER := 0, CR := 0, CFGR := 0, SMPR1 := 0, SMPR2 := 0, TR1 := 0,
    SQR1 := 0, SQR2 := 0, SQR3 := 0, SQR4 := 0, DR := 0 }

/-- Block 1 configured with the three channels 3, 7, 11 (the rest of the
array zero), cursor at the start, nothing recorded yet. -/
def demoState : State :=
  { priv := { irq := 18, nchannels := 3, intf := 1, current := 0, base := 0x50040000,
              chanlist := [3, 7, 11, 0, 0, 0, 0, 0, 0, 0, 0, 0, 0, 0, 0, 0] },
    regs := zeroRegs, rcc := 0, trace := [] }

/-! ## Round-robin delivery -/

/-- The cursor after one end-of-conversion service. -/
def next_cursor (priv : stm32_dev_s) (c : Nat) : Nat :=
  if u8 (c + 1) ≥ priv.nchannels then 0 else u8 (c + 1)

/-- The `adc_receive` calls of a run of end-of-conversion services that starts
with the cursor at `c`. -/
def samples (d : Defs) (priv : stm32_dev_s) : Nat → List (Nat × Nat) → List Ev
  | _, [] => []
  | c, e :: es =>
    Ev.adc_receive (chan priv c) (toInt32 (u32 e.2 &&& d.ADC_DR_MASK))
      :: samples d priv (next_cursor priv c) es

/-! ## Hardware that answers the waits of `adc_enable` -/

/-- The hardware ends a calibration within `n` polls, whatever the registers
hold when the wait begins. -/
def Hw.calibrates (d : Defs) (hw : Hw) (n : Nat) : Prop :=
  ∀ r : Regs, ∃ k, k < n ∧ u32 (hw.tick^[k] r).CR &&& d.ADC_CR_ADCAL = 0

/-- The hardware reports ready within `n` polls, whatever the registers hold
when the wait begins. -/
def Hw.gets_ready (d : Defs) (hw : Hw) (n : Nat) : Prop :=
  ∀ r : Regs, ∃ k, k < n ∧ u32 (hw.tick^[k] r).ISR &&& d.ADC_INT_ADRDY ≠ 0

/-- The state `adc_setup` hands to `adc_enable`: reset, sample times, the four
sequence registers and the cursor are done. -/
def setup_program (d : Defs) (hw : Hw) (s : State) : State :=
  let s := adc_reset d hw s
  let s := adc_putreg s .SMPR1 0x3fffffff
  let s := adc_putreg s .SMPR2 0x07ffffff
  let regval := adc_getreg s .SQR4
  let regval := sqr_loop s.priv 16 (16 - 14) 14 0 regval
  let s := adc_putreg s .SQR4 regval
  let regval := adc_getreg s .SQR3
  let regval := sqr_loop s.priv 14 (14 - 9) 9 0 regval
  let s := adc_putreg s .SQR3 regval
  let regval := adc_getreg s .SQR2
  let regval := sqr_loop s.priv 9 (9 - 4) 4 0 regval
  let s := adc_putreg s .SQR2 regval
  let regval := adc_getreg s .SQR1
  let regval := sqr_loop s.priv 4 (4 - 0) 0 6 regval
  let regval := regval ||| u32 (u32 (s.priv.nchannels + 2 ^ 32 - 1) <<< d.ADC_SQR1_L_SHIFT)
  let s := adc_putreg s .SQR1 regval
  { s with priv := { s.priv with current := 0 } }

/-- Two register windows agree outside the control and the status register. -/
def same_but_cr_isr (r r' : Regs) : Prop :=
  r' = { r with CR := r'.CR, ISR := r'.ISR }

/-- Hardware for the concrete runs: the registers read zero after reset, a
calibration ends by the next poll (`ADCAL`, bit 31, drops) and the block
reports ready by the next poll (`ADRDY`, bit 0, rises). -/
def demoHw : Hw where
  reset := zeroRegs
  crNext := fun r => r.CR % 2 ^ 31
  isrNext := fun r => r.ISR ||| 1

/-- A build with all three blocks, power management and the software trigger
commands, without debug assertions. -/
def demoConfig : Config where
  CONFIG_STM32_ADC1 := true
  CONFIG_STM32_ADC2 := true
  CONFIG_STM32_ADC3 := true
  CONFIG_PM := true
  CONFIG_STM32_ADC_SWTRIG := true
  CONFIG_DEBUG := false

/-! ## Reading the sequence registers -/

/-- The 6-bit slot of sequence position `k` (0-based): positions 0..3 are in
`SQR1` at bit offsets 6, 12, 18, 24, positions 4..8 in `SQR2` at offsets
0..24, positions 9..13 in `SQR3` at offsets 0..24, positions 14 and 15 in
`SQR4` at offsets 0 and 6. -/
def sqr_slot (r : Regs) (k : Nat) : Nat :=
  if k < 4 then (r.SQR1 >>> (6 + 6 * k)) % 2 ^ 6
  else if k < 9 then (r.SQR2 >>> (0 + 6 * (k - 4))) % 2 ^ 6
  else if k < 14 then (r.SQR3 >>> (0 + 6 * (k - 9))) % 2 ^ 6
  else (r.SQR4 >>> (0 + 6 * (k - 14))) % 2 ^ 6

/-- The 4-bit conversion-count field of `SQR1`, at `ADC_SQR1_L_SHIFT`. -/
def sqr_count (d : Defs) (r : Regs) : Nat :=
  (r.SQR1 >>> d.ADC_SQR1_L_SHIFT) % 2 ^ 4

/-! ## Readings used in the statements -/

/-- The case labels of the `switch` in `adc_ioctl` are pairwise different. -/
def Defs.cmds_distinct (d : Defs) : Prop :=
  d.ANIOC_TRIGGER ≠ d.ANIOC_WDOG_UPPER ∧ d.ANIOC_TRIGGER ≠ d.ANIOC_WDOG_LOWER ∧
    d.ANIOC_WDOG_UPPER ≠ d.ANIOC_WDOG_LOWER

instance (d : Defs) : Decidable d.cmds_distinct := by
  unfold Defs.cmds_distinct; exact inferInstance

/-- The lower watchdog threshold held in `TR1`, as `adc_ioctl` reads it. -/
def tr1_lower (d : Defs) (s : State) : Nat :=
  (adc_getreg s .TR1 &&& d.ADC_TR1_LT_MASK) >>> d.ADC_TR1_LT_SHIFT

/-- The upper watchdog threshold held in `TR1`, as `adc_ioctl` reads it. -/
def tr1_upper (d : Defs) (s : State) : Nat :=
  (adc_getreg s .TR1 &&& d.ADC_TR1_HT_MASK) >>> d.ADC_TR1_HT_SHIFT

/-- Block 1 with `TR1` at its reset value: lower threshold 0, upper threshold
0xFFF. -/
def resetTr1State : State :=
  { demoState with regs := { zeroRegs with TR1 := 0x0fff0000 } }

/-- Block 1 in watchdog mode: thresholds 5 (lower) and 16 (upper) in `TR1`,
the watchdog interrupt enabled, continuous conversion running. -/
def wdogState : State :=
  { demoState with
    regs := { zeroRegs with TR1 := 0x100005, IER := 0x80, CFGR := 0x803000, CR := 0x10000005 } }

/-- The three statically allocated blocks before `stm32_adcinitialize` ran:
no channels, cursor 0, channel arrays zero. -/
def demoGlobals : Globals :=
  { g_adcpriv1 := { irq := 18, nchannels := 0, intf := 1, current := 0, base := 0x50040000,
                    chanlist := List.replicate 16 0 },
    g_adcpriv2 := { irq := 18, nchannels := 0, intf := 2, current := 0, base := 0x50040100,
                    chanlist := List.replicate 16 0 },
    g_adcpriv3 := { irq := 47, nchannels := 0, intf := 3, current := 0, base := 0x50040200,
                    chanlist := List.replicate 16 0 } }

/-! ## Sequences of operations on a configured block -/

/-- One operation on a configured block: `adc_rxint`, `adc_ioctl`, or a
hardware event serviced by `adc_interrupt`. -/
inductive Op where
  | rxint (enable : Bool)
  | ioctl (cmd : Int) (arg : Nat)
  | interrupt (isr dr : Nat)
  deriving DecidableEq, Repr

/-- The state after one operation. -/
def step (d : Defs) (cfg : Config) (s : State) : Op → State
  | .rxint enable => adc_rxint d s enable
  | .ioctl cmd arg => (adc_ioctl d cfg s cmd arg).2
  | .interrupt isr dr => hw_event d s isr dr

/-- The state after a sequence of operations. -/
def run (d : Defs) (cfg : Config) : State → List Op → State
  | s, [] => s
  | s, op :: ops => run d cfg (step d cfg s op) ops

/-- Position `k` is the first one of its sequence register. -/
def first_in_register (k : Nat) : Prop :=
  k = 0 ∨ k = 4 ∨ k = 9 ∨ k = 14

instance (k : Nat) : Decidable (first_in_register k) := by
  unfold first_in_register; exact inferInstance

/-- What the loops of `adc_setup` leave in the slot of position `k` when the
identifiers are arbitrary bytes: the low six bits of the identifier listed at
`k`, ORed with the two top bits of the identifier listed at `k - 1` when that
position is in the same register. -/
def slot_with_spill (priv : stm32_dev_s) (k : Nat) : Nat :=
  (if k < priv.nchannels then chan priv k % 2 ^ 6 else 0) |||
    (if ¬ first_in_register k ∧ k - 1 < priv.nchannels then chan priv (k - 1) >>> 6 else 0)

/-- Block 1 configured with the two channels 64 and 0. -/
def spillState : State :=
  { demoState with
    priv := { demoState.priv with
      nchannels := 2,
      chanlist := [64, 0, 0, 0, 0, 0, 0, 0, 0, 0, 0, 0, 0, 0, 0, 0] } }

/-- The state `adc_setup` returns on `spillState` with the reference header
and hardware. -/
def spillSetup : State :=
  match adc_setup stm32l4x6 demoConfig demoHw 2 OK spillState with
  | .ret (_, s) => s
  | _ => spillState

/-! ## Theorems -/

theorem u32_idem (x : Nat) : u32 (u32 x) = u32 x := by
  unfold u32; exact Nat.mod_mod _ _

theorem hw_event_eoc (d : Defs) (s : State) (isr dr : Nat) (h : eoc_only d isr) :
    hw_event d s isr dr =
      { s with
        regs := { s.regs with ISR := u32 isr, DR := u32 dr },
        trace := s.trace ++
          [Ev.adc_receive (chan s.priv s.priv.current) (toInt32 (u32 dr &&& d.ADC_DR_MASK))],
        priv := { s.priv with current := next_cursor s.priv s.priv.current } } := by
  obtain ⟨h1, h2⟩ := h
  simp only [hw_event, adc_interrupt, adc_getreg, Regs.get, u32_idem, h2, h1, ne_eq,
    not_true_eq_false, not_false_eq_true, if_true, if_false, next_cursor]
  split <;> rfl

theorem samples_current (d : Defs) (priv : stm32_dev_s) (c' : Nat) (evs : List (Nat × Nat)) :
    ∀ c, samples d { priv with current := c' } c evs = samples d priv c evs := by
  induction evs with
  | nil => intro c; rfl
  | cons e es ih => intro c; simp only [samples, ih]; rfl

theorem next_cursor_mod (priv : stm32_dev_s) (c : Nat) (hn : priv.nchannels ≤ 16)
    (hc : c < priv.nchannels) : next_cursor priv c = (c + 1) % priv.nchannels := by
  have h8 : u8 (c + 1) = c + 1 := by unfold u8; omega
  unfold next_cursor
  rw [h8]
  by_cases h : c + 1 ≥ priv.nchannels
  · have : c + 1 = priv.nchannels := by omega
    rw [if_pos h, this, Nat.mod_self]
  · rw [if_neg h, Nat.mod_eq_of_lt (by omega)]

/-- Trace and block state after a run of end-of-conversion services. -/
theorem hw_events_eoc (d : Defs) (evs : List (Nat × Nat)) :
    ∀ s : State, (∀ e ∈ evs, eoc_only d e.1) →
      (hw_events d s evs).trace = s.trace ++ samples d s.priv s.priv.current evs ∧
      (hw_events d s evs).priv =
        { s.priv with current := (next_cursor s.priv)^[evs.length] s.priv.current } := by
  induction evs with
  | nil => intro s _; simp [hw_events, samples]
  | cons e es ih =>
    intro s h
    have he : eoc_only d e.1 := h e (List.mem_cons_self _ _)
    have hes : ∀ x ∈ es, eoc_only d x.1 := fun x hx => h x (List.mem_cons_of_mem _ hx)
    obtain ⟨ht, hp⟩ := ih (hw_event d s e.1 e.2) hes
    rw [hw_events, ht, hp, hw_event_eoc d s e.1 e.2 he]
    simp only [samples, samples_current, List.append_assoc, List.singleton_append,
      List.length_cons, Function.iterate_succ, Function.comp_apply, true_and]
    rfl

theorem next_cursor_iterate (priv : stm32_dev_s) (hn : priv.nchannels ≤ 16) (k : Nat) :
    ∀ c, c < priv.nchannels → (next_cursor priv)^[k] c = (c + k) % priv.nchannels := by
  induction k with
  | zero => intro c hc; simp [Nat.mod_eq_of_lt hc]
  | succ k ih =>
    intro c hc
    have hpos : 0 < priv.nchannels := by omega
    rw [Function.iterate_succ, Function.comp_apply, next_cursor_mod priv c hn hc,
      ih _ (Nat.mod_lt _ hpos), Nat.mod_add_mod]
    congr 1; omega

theorem samples_closed (d : Defs) (priv : stm32_dev_s) (hn : priv.nchannels ≤ 16)
    (evs : List (Nat × Nat)) :
    ∀ c, c < priv.nchannels →
      samples d priv c evs =
        (List.range evs.length).map fun k =>
          Ev.adc_receive (chan priv ((c + k) % priv.nchannels))
            (toInt32 (u32 (evs.getD k (0, 0)).2 &&& d.ADC_DR_MASK)) := by
  induction evs with
  | nil => intro c _; rfl
  | cons e es ih =>
    intro c hc
    have hpos : 0 < priv.nchannels := by omega
    rw [samples, ih _ (by rw [next_cursor_mod priv c hn hc]; exact Nat.mod_lt _ hpos),
      List.length_cons, List.range_succ_eq_map, List.map_cons, List.map_map]
    congr 1
    · simp [Nat.mod_eq_of_lt hc]
    · apply List.map_congr_left
      intro k _
      simp only [Function.comp_apply, List.getD_cons_succ]
      rw [next_cursor_mod priv c hn hc, Nat.mod_add_mod]
      congr 3; omega

/-- C1: a block with at most 16 channels and the cursor `c0` inside the list
(so `nchannels` is in 1..16) that services N events, each with only the end-of-conversion flag latched,
records exactly N `adc_receive` calls and nothing else; call number k
(k = 0..N-1) carries `chanlist[(c0 + k) mod nchannels]` and the data register
of event k masked with `ADC_DR_MASK`. -/
theorem adc_interrupt_round_robin (d : Defs) (s : State) (evs : List (Nat × Nat))
    (hn16 : s.priv.nchannels ≤ 16) (hc : s.priv.current < s.priv.nchannels)
    (heoc : ∀ e ∈ evs, eoc_only d e.1) :
    (hw_events d s evs).trace =
      s.trace ++ (List.range evs.length).map fun k =>
        Ev.adc_receive (chan s.priv ((s.priv.current + k) % s.priv.nchannels))
          (toInt32 (u32 (evs.getD k (0, 0)).2 &&& d.ADC_DR_MASK)) := by
  rw [(hw_events_eoc d evs s heoc).1, samples_closed d s.priv hn16 evs _ hc]

/-- C1, the concrete run: channels 3, 7, 11 with data 0x100, 0x1FF, 0x2AA are
delivered in this order, and a fourth event delivers channel 3 again. -/
theorem adc_interrupt_round_robin_witness :
    (hw_events stm32l4x6 demoState [(4, 0x100), (4, 0x1FF), (4, 0x2AA), (4, 0x155)]).trace =
      [Ev.adc_receive 3 0x100, Ev.adc_receive 7 0x1FF, Ev.adc_receive 11 0x2AA,
       Ev.adc_receive 3 0x155] :=
  (adc_interrupt_round_robin stm32l4x6 demoState
    [(4, 0x100), (4, 0x1FF), (4, 0x2AA), (4, 0x155)]
    (by decide) (by decide) (by decide)).trans (by decide)

/-! ## Setup returns -/

theorem same_but_cr_isr_refl (r : Regs) : same_but_cr_isr r r := rfl

theorem same_but_cr_isr_trans {a b c : Regs} (h1 : same_but_cr_isr a b)
    (h2 : same_but_cr_isr b c) : same_but_cr_isr a c := by
  unfold same_but_cr_isr at *
  rw [h2, h1]

theorem same_but_cr_isr_tick (hw : Hw) (r : Regs) : same_but_cr_isr r (hw.tick r) := rfl

theorem same_but_cr_isr_iterate (hw : Hw) (k : Nat) :
    ∀ r, same_but_cr_isr r (hw.tick^[k] r) := by
  induction k with
  | zero => intro r; rfl
  | succ k ih =>
    intro r
    rw [Function.iterate_succ, Function.comp_apply]
    exact same_but_cr_isr_trans (same_but_cr_isr_tick hw r) (ih _)

/-- A wait whose condition turns false within `n` hardware steps ends, in the
state the hardware reached by then. -/
theorem adc_wait_some (hw : Hw) (busy : State → Bool) (n : Nat) :
    ∀ s : State, (∃ k, k < n ∧ busy { s with regs := hw.tick^[k] s.regs } = false) →
      ∃ k, adc_wait hw busy n s = some { s with regs := hw.tick^[k] s.regs } := by
  induction n with
  | zero => intro s ⟨k, hk, _⟩; omega
  | succ n ih =>
    intro s ⟨k, hk, hb⟩
    by_cases h0 : busy s = true
    · cases k with
      | zero => simp [h0] at hb
      | succ k =>
        obtain ⟨j, hj⟩ := ih { s with regs := hw.tick s.regs } ⟨k, by omega, hb⟩
        exact ⟨j + 1, by simp only [adc_wait, h0, if_true, hj]; rfl⟩
    · exact ⟨0, by simp [adc_wait, h0]⟩

/-- With hardware that answers both waits, `adc_enable` returns; it leaves the
block state alone and touches no register but `CR` and `ISR`. -/
theorem adc_enable_some (d : Defs) (hw : Hw) (fuel : Nat) (s : State)
    (hcal : hw.calibrates d fuel) (hrdy : hw.gets_ready d fuel) :
    ∃ s', adc_enable d hw fuel s = some s' ∧ s'.priv = s.priv ∧ s'.rcc = s.rcc ∧
      same_but_cr_isr s.regs s'.regs := by
  unfold adc_enable
  simp only []
  generalize hs1 : adc_putreg _ Reg.CR _ = s1
  have hp1 : s1.priv = s.priv ∧ s1.rcc = s.rcc ∧ same_but_cr_isr s.regs s1.regs := by
    subst hs1; exact ⟨rfl, rfl, rfl⟩
  obtain ⟨k1, hk1⟩ := adc_wait_some hw (cal_busy d) fuel s1 (by
    obtain ⟨k, hk, h⟩ := hcal s1.regs
    exact ⟨k, hk, by simp [cal_busy, adc_getreg, Regs.get, h]⟩)
  rw [hk1]
  simp only []
  generalize hs2 : adc_putreg _ Reg.CR _ = s2
  have hp2 : s2.priv = s.priv ∧ s2.rcc = s.rcc ∧ same_but_cr_isr s.regs s2.regs := by
    subst hs2
    refine ⟨hp1.1, hp1.2.1, ?_⟩
    exact same_but_cr_isr_trans hp1.2.2
      (same_but_cr_isr_trans (same_but_cr_isr_iterate hw k1 s1.regs) rfl)
  obtain ⟨k2, hk2⟩ := adc_wait_some hw (rdy_busy d) fuel s2 (by
    obtain ⟨k, hk, h⟩ := hrdy s2.regs
    exact ⟨k, hk, by simp [rdy_busy, adc_getreg, Regs.get, h]⟩)
  refine ⟨_, hk2, hp2.1, hp2.2.1, ?_⟩
  exact same_but_cr_isr_trans hp2.2.2 (same_but_cr_isr_iterate hw k2 s2.regs)

theorem adc_setup_eq (d : Defs) (cfg : Config) (hw : Hw) (fuel : Nat) (irq_attach : Int)
    (s : State) :
    adc_setup d cfg hw fuel irq_attach s =
      if irq_attach ≠ OK then .ret (irq_attach, s)
      else if cfg.CONFIG_DEBUG = true ∧ ¬ s.priv.nchannels ≤ ADC_MAX_SAMPLES then .assert_failed
      else match adc_enable d hw fuel (setup_program d hw s) with
        | none => .hang
        | some s => .ret (OK, s) := rfl

/-- With the interrupt attached, at most 16 channels and hardware that answers
the waits, `adc_setup` returns `OK`; the final state is the programmed one up
to `CR` and `ISR`. -/
theorem adc_setup_ret (d : Defs) (cfg : Config) (hw : Hw) (fuel : Nat) (s : State)
    (hn : s.priv.nchannels ≤ 16)
    (hcal : hw.calibrates d fuel) (hrdy : hw.gets_ready d fuel) :
    ∃ s', adc_setup d cfg hw fuel OK s = .ret (OK, s') ∧
      s'.priv = (setup_program d hw s).priv ∧
      same_but_cr_isr (setup_program d hw s).regs s'.regs := by
  obtain ⟨s', h, hp, _, hr⟩ := adc_enable_some d hw fuel (setup_program d hw s) hcal hrdy
  refine ⟨s', ?_, hp, hr⟩
  rw [adc_setup_eq, if_neg (by simp), if_neg (by simp [ADC_MAX_SAMPLES, hn]), h]

theorem demoHw_calibrates : demoHw.calibrates stm32l4x6 2 := by
  intro r
  refine ⟨1, by decide, ?_⟩
  show u32 (u32 (r.CR % 2 ^ 31)) &&& 0x80000000 = 0
  have h : u32 (u32 (r.CR % 2 ^ 31)) < 2 ^ 31 := by unfold u32; omega
  have h31 : (0x80000000 : Nat) = 2 ^ 31 := by norm_num
  rw [h31, Nat.and_two_pow, Nat.testBit_lt_two_pow h]; rfl

theorem demoHw_gets_ready : demoHw.gets_ready stm32l4x6 2 := by
  intro r
  refine ⟨1, by decide, ?_⟩
  show u32 (u32 (r.ISR ||| 1)) &&& 1 ≠ 0
  rw [Nat.and_one_is_mod]
  have : (r.ISR ||| 1) % 2 = 1 := by simp [Nat.or_mod_two_eq_one]
  unfold u32; omega

/-! ## Round-robin closure -/

theorem setup_program_priv (d : Defs) (hw : Hw) (s : State) :
    (setup_program d hw s).priv = { s.priv with current := 0 } := rfl

/-- C2: with the interrupt attached, `nchannels` in 1..16, any channel list
and hardware that answers the waits of `adc_enable`, `adc_setup` returns `OK`
with the cursor at 0; from there `nchannels` services with only the
end-of-conversion flag latched bring the cursor back to 0, and after each
smaller positive number of them the cursor is not 0. -/
theorem adc_setup_cursor_closure (d : Defs) (cfg : Config) (hw : Hw) (fuel : Nat) (s : State)
    (hn1 : 1 ≤ s.priv.nchannels) (hn16 : s.priv.nchannels ≤ 16)
    (hcal : hw.calibrates d fuel) (hrdy : hw.gets_ready d fuel) :
    ∃ s', adc_setup d cfg hw fuel OK s = .ret (OK, s') ∧ s'.priv.current = 0 ∧
      ∀ evs : List (Nat × Nat), (∀ e ∈ evs, eoc_only d e.1) →
        (evs.length = s.priv.nchannels → (hw_events d s' evs).priv.current = 0) ∧
        (0 < evs.length → evs.length < s.priv.nchannels →
          (hw_events d s' evs).priv.current ≠ 0) := by
  obtain ⟨s', hret, hp, _⟩ := adc_setup_ret d cfg hw fuel s hn16 hcal hrdy
  rw [setup_program_priv] at hp
  have hcur : s'.priv.current = 0 := by rw [hp]
  have hnch : s'.priv.nchannels = s.priv.nchannels := by rw [hp]
  refine ⟨s', hret, hcur, ?_⟩
  intro evs heoc
  have hrun := (hw_events_eoc d evs s' heoc).2
  have hit := next_cursor_iterate s'.priv (by omega) evs.length 0 (by omega)
  have hfin : (hw_events d s' evs).priv.current = evs.length % s.priv.nchannels := by
    rw [hrun]
    show (next_cursor s'.priv)^[evs.length] s'.priv.current = _
    rw [hcur, hit, hnch, Nat.zero_add]
  constructor
  · intro hlen
    rw [hfin, hlen, Nat.mod_self]
  · intro hpos hlt
    rw [hfin, Nat.mod_eq_of_lt hlt]
    omega

/-- C2 on the three-channel block with the reference header and hardware. -/
theorem adc_setup_cursor_closure_witness :
    ∃ s', adc_setup stm32l4x6 demoConfig demoHw 2 OK demoState = .ret (OK, s') ∧
      s'.priv.current = 0 ∧
      ∀ evs : List (Nat × Nat), (∀ e ∈ evs, eoc_only stm32l4x6 e.1) →
        (evs.length = demoState.priv.nchannels →
          (hw_events stm32l4x6 s' evs).priv.current = 0) ∧
        (0 < evs.length → evs.length < demoState.priv.nchannels →
          (hw_events stm32l4x6 s' evs).priv.current ≠ 0) :=
  adc_setup_cursor_closure stm32l4x6 demoConfig demoHw 2 demoState (by decide) (by decide)
    demoHw_calibrates demoHw_gets_ready

/-! ## Bit fields -/

theorem testBit_u32 (x b : Nat) : (u32 x).testBit b = (decide (b < 32) && x.testBit b) :=
  Nat.testBit_mod_two_pow x 32 b

theorem testBit_of_lt_two_pow {c w e : Nat} (hc : c < 2 ^ w) (he : w ≤ e) :
    c.testBit e = false :=
  Nat.testBit_lt_two_pow (lt_of_lt_of_le hc (Nat.pow_le_pow_right (by norm_num) he))

/-- A field of width `w` at offset `off` holds `c` when its bits are those of `c`. -/
theorem field_eq (R off w c : Nat) (hc : c < 2 ^ w)
    (h : ∀ e, e < w → R.testBit (off + e) = c.testBit e) : (R >>> off) % 2 ^ w = c := by
  apply Nat.eq_of_testBit_eq
  intro e
  rw [Nat.testBit_mod_two_pow, Nat.testBit_shiftRight]
  by_cases he : e < w
  · simp [he, h e he]
  · simp [he, testBit_of_lt_two_pow hc (not_lt.mp he)]

/-- Bits below the first offset of a loop are not touched by it. -/
theorem sqr_loop_low (priv : stm32_dev_s) (lim : Nat) :
    ∀ f i off r b, b < off → b < 32 →
      (sqr_loop priv lim f i off r).testBit b = r.testBit b := by
  intro f
  induction f with
  | zero => intro i off r b _ _; rfl
  | succ f ih =>
    intro i off r b hb h32
    unfold sqr_loop
    split
    · rw [ih (i + 1) (off + 6) _ b (by omega) h32, testBit_u32, Nat.testBit_or, testBit_u32,
        Nat.testBit_shiftLeft]
      simp [h32, show ¬ b ≥ off by omega]
    · rfl

/-- Bit `e` of the slot `t` places after the first offset of a loop: the loop
adds bit `e` of `chanlist[i + t]` when it reaches that place. -/
theorem sqr_loop_slot (priv : stm32_dev_s) (lim : Nat)
    (hid : ∀ j, j < priv.nchannels → chan priv j < 2 ^ 6) :
    ∀ f i off r t e, e < 6 → off + 6 * t + e < 32 →
      (sqr_loop priv lim f i off r).testBit (off + 6 * t + e) =
        (r.testBit (off + 6 * t + e) ||
          (decide (t < f ∧ i + t < priv.nchannels ∧ i + t < lim) && (chan priv (i + t)).testBit e))
        := by
  intro f
  induction f with
  | zero => intro i off r t e _ _; simp [sqr_loop]
  | succ f ih =>
    intro i off r t e he h32
    unfold sqr_loop
    split
    · rename_i hcond
      cases t with
      | zero =>
        rw [sqr_loop_low priv lim f (i + 1) (off + 6) _ _ (by omega) h32, testBit_u32,
          Nat.testBit_or, testBit_u32, Nat.testBit_shiftLeft]
        have h32' : off + e < 32 := by omega
        simp [h32', hcond.1, hcond.2]
      | succ t =>
        have hpos : off + 6 * (t + 1) + e = (off + 6) + 6 * t + e := by omega
        have hidx : i + (t + 1) = i + 1 + t := by omega
        have hhigh : (chan priv i).testBit (off + 6 + 6 * t + e - off) = false :=
          testBit_of_lt_two_pow (hid i hcond.1) (by omega)
        rw [hpos, hidx, ih (i + 1) (off + 6) _ t e he (by omega), testBit_u32, Nat.testBit_or,
          testBit_u32, Nat.testBit_shiftLeft, hhigh]
        simp [show off + 6 + 6 * t + e < 32 by omega]
    · rename_i hcond
      have : ¬ (t < f + 1 ∧ i + t < priv.nchannels ∧ i + t < lim) := by
        intro ⟨_, h1, h2⟩; exact hcond ⟨by omega, by omega⟩
      simp [this]

/-- A slot of a register that one loop of `adc_setup` built from zero. -/
theorem slot_u32_loop (priv : stm32_dev_s) (lim f i off t x : Nat)
    (hid : ∀ j, j < priv.nchannels → chan priv j < 2 ^ 6)
    (hx : ∀ b, off ≤ b → x.testBit b = false)
    (h32 : off + 6 * t + 6 ≤ 32) (ht : t < f) (hlim : i + t < lim) :
    (u32 (sqr_loop priv lim f i off 0 ||| x) >>> (off + 6 * t)) % 2 ^ 6 =
      if i + t < priv.nchannels then chan priv (i + t) else 0 := by
  apply field_eq
  · split
    · exact hid _ (by assumption)
    · norm_num
  · intro e he
    rw [testBit_u32, Nat.testBit_or, sqr_loop_slot priv lim hid f i off 0 t e he (by omega),
      hx _ (by omega)]
    by_cases hn : i + t < priv.nchannels
    · simp [hn, ht, hlim, show off + 6 * t + e < 32 by omega]
    · simp [hn]

/-- The word `adc_setup` ORs into `SQR1` for the count has no bit at or above
the first slot. -/
theorem count_word_high (d : Defs) (n : Nat) (hn1 : 1 ≤ n) (hn16 : n ≤ 16)
    (hL : d.ADC_SQR1_L_SHIFT + 4 ≤ 6) (b : Nat) (hb : 6 ≤ b) :
    (u32 (u32 (n + 2 ^ 32 - 1) <<< d.ADC_SQR1_L_SHIFT)).testBit b = false := by
  have hval : u32 (n + 2 ^ 32 - 1) = n - 1 := by unfold u32; omega
  have hlt : n - 1 < 2 ^ 4 := by norm_num; omega
  rw [testBit_u32, Nat.testBit_shiftLeft, hval, testBit_of_lt_two_pow hlt (by omega)]
  simp

/-- The count field of the word `adc_setup` writes to `SQR1`. -/
theorem count_field (d : Defs) (priv : stm32_dev_s) (hn1 : 1 ≤ priv.nchannels)
    (hn16 : priv.nchannels ≤ 16) (hL : d.ADC_SQR1_L_SHIFT + 4 ≤ 6) :
    (u32 (sqr_loop priv 4 4 0 6 0 |||
        u32 (u32 (priv.nchannels + 2 ^ 32 - 1) <<< d.ADC_SQR1_L_SHIFT))
      >>> d.ADC_SQR1_L_SHIFT) % 2 ^ 4 = priv.nchannels - 1 := by
  have hval : u32 (priv.nchannels + 2 ^ 32 - 1) = priv.nchannels - 1 := by unfold u32; omega
  apply field_eq
  · norm_num; omega
  · intro e he
    rw [testBit_u32, Nat.testBit_or, sqr_loop_low priv 4 4 0 6 0 _ (by omega) (by omega),
      testBit_u32, Nat.testBit_shiftLeft, hval]
    simp [show d.ADC_SQR1_L_SHIFT + e < 32 by omega]

/-! ## Sequence programming -/

theorem setup_program_SQR1 (d : Defs) (hw : Hw) (s : State) :
    (setup_program d hw s).regs.SQR1 =
      u32 (sqr_loop s.priv 4 4 0 6 (u32 hw.reset.SQR1) |||
        u32 (u32 (s.priv.nchannels + 2 ^ 32 - 1) <<< d.ADC_SQR1_L_SHIFT)) := rfl

theorem setup_program_SQR2 (d : Defs) (hw : Hw) (s : State) :
    (setup_program d hw s).regs.SQR2 = u32 (sqr_loop s.priv 9 5 4 0 (u32 hw.reset.SQR2)) := rfl

theorem setup_program_SQR3 (d : Defs) (hw : Hw) (s : State) :
    (setup_program d hw s).regs.SQR3 = u32 (sqr_loop s.priv 14 5 9 0 (u32 hw.reset.SQR3)) := rfl

theorem setup_program_SQR4 (d : Defs) (hw : Hw) (s : State) :
    (setup_program d hw s).regs.SQR4 = u32 (sqr_loop s.priv 16 2 14 0 (u32 hw.reset.SQR4)) := rfl

/-- C3: on a block whose four sequence registers are zero after reset, with
`nchannels` in 1..16, every listed identifier below 64 and the count field
placed below the first slot, `adc_setup` returns `OK` and leaves the count
field of `SQR1` at `nchannels - 1`, the slot of every position below
`nchannels` at the identifier listed there, and every other slot at zero. -/
theorem adc_setup_sequence_encoding (d : Defs) (cfg : Config) (hw : Hw) (fuel : Nat)
    (s : State) (hn1 : 1 ≤ s.priv.nchannels) (hn16 : s.priv.nchannels ≤ 16)
    (hid : ∀ k, k < s.priv.nchannels → chan s.priv k < 64)
    (hL : d.ADC_SQR1_L_SHIFT + 4 ≤ 6)
    (hz1 : hw.reset.SQR1 = 0) (hz2 : hw.reset.SQR2 = 0)
    (hz3 : hw.reset.SQR3 = 0) (hz4 : hw.reset.SQR4 = 0)
    (hcal : hw.calibrates d fuel) (hrdy : hw.gets_ready d fuel) :
    ∃ s', adc_setup d cfg hw fuel OK s = .ret (OK, s') ∧
      sqr_count d s'.regs = s.priv.nchannels - 1 ∧
      ∀ k, k < 16 → sqr_slot s'.regs k = if k < s.priv.nchannels then chan s.priv k else 0 := by
  obtain ⟨s', hret, _, hr⟩ := adc_setup_ret d cfg hw fuel s hn16 hcal hrdy
  have h1 : s'.regs.SQR1 = (setup_program d hw s).regs.SQR1 := by rw [hr]
  have h2 : s'.regs.SQR2 = (setup_program d hw s).regs.SQR2 := by rw [hr]
  have h3 : s'.regs.SQR3 = (setup_program d hw s).regs.SQR3 := by rw [hr]
  have h4 : s'.regs.SQR4 = (setup_program d hw s).regs.SQR4 := by rw [hr]
  rw [setup_program_SQR1, hz1] at h1
  rw [setup_program_SQR2, hz2] at h2
  rw [setup_program_SQR3, hz3] at h3
  rw [setup_program_SQR4, hz4] at h4
  have hu0 : u32 0 = 0 := rfl
  have hx0 : ∀ b : Nat, 0 ≤ b → (0 : Nat).testBit b = false := fun b _ => Nat.zero_testBit b
  have hid' : ∀ j, j < s.priv.nchannels → chan s.priv j < 2 ^ 6 := hid
  refine ⟨s', hret, ?_, ?_⟩
  · rw [sqr_count, h1, hu0]
    exact count_field d s.priv hn1 hn16 hL
  · intro k hk
    unfold sqr_slot
    by_cases hk4 : k < 4
    · rw [if_pos hk4, h1, hu0]
      have := slot_u32_loop s.priv 4 4 0 6 k _ hid'
        (fun b hb => count_word_high d s.priv.nchannels hn1 hn16 hL b hb)
        (by omega) hk4 (by omega)
      rw [Nat.zero_add] at this
      exact this
    · by_cases hk9 : k < 9
      · rw [if_neg hk4, if_pos hk9, h2, hu0]
        have := slot_u32_loop s.priv 9 5 4 0 (k - 4) 0 hid' hx0 (by omega) (by omega) (by omega)
        rw [Nat.or_zero, show 4 + (k - 4) = k by omega] at this
        exact this
      · by_cases hk14 : k < 14
        · rw [if_neg hk4, if_neg hk9, if_pos hk14, h3, hu0]
          have := slot_u32_loop s.priv 14 5 9 0 (k - 9) 0 hid' hx0 (by omega) (by omega)
            (by omega)
          rw [Nat.or_zero, show 9 + (k - 9) = k by omega] at this
          exact this
        · rw [if_neg hk4, if_neg hk9, if_neg hk14, h4, hu0]
          have := slot_u32_loop s.priv 16 2 14 0 (k - 14) 0 hid' hx0 (by omega) (by omega)
            (by omega)
          rw [Nat.or_zero, show 14 + (k - 14) = k by omega] at this
          exact this

/-! ## Bit masks -/

theorem testBit_not32 (x b : Nat) :
    (not32 x).testBit b = (decide (b < 32) && !x.testBit b) := by
  unfold not32
  rw [Nat.testBit_xor, Nat.testBit_two_pow_sub_one, testBit_u32]
  cases decide (b < 32) <;> simp

theorem testBit_lt_32 {a : Nat} (ha : a < 2 ^ 32) (i : Nat) (h : a.testBit i = true) :
    i < 32 := by
  by_contra hc
  have := testBit_of_lt_two_pow ha (not_lt.mp hc)
  simp [this] at h

theorem and_eq_zero_testBit {a e : Nat} (h : a &&& e = 0) (i : Nat) :
    (a.testBit i && e.testBit i) = false := by
  rw [← Nat.testBit_and, h, Nat.zero_testBit]

/-- After `&= ~e` no bit of `e` is left. -/
theorem clear_then_test (x e : Nat) : u32 (x &&& not32 e) &&& e = 0 := by
  apply Nat.eq_of_testBit_eq; intro i
  simp only [Nat.testBit_and, testBit_u32, testBit_not32, Nat.zero_testBit]
  cases e.testBit i <;> simp

/-- After `|= a; &= ~e` every bit of `a` is there when `a` and `e` are disjoint. -/
theorem set_then_clear_test (x a e : Nat) (hd : a &&& e = 0) (ha : a < 2 ^ 32) :
    u32 ((x ||| a) &&& not32 e) &&& a = a := by
  apply Nat.eq_of_testBit_eq; intro i
  have h1 := and_eq_zero_testBit hd i
  have h2 := testBit_lt_32 ha i
  simp only [Nat.testBit_and, Nat.testBit_or, testBit_u32, testBit_not32]
  cases hai : a.testBit i <;> cases hei : e.testBit i <;> simp_all

/-- After `|= a` every bit of `a` is there. -/
theorem or_then_test (x a : Nat) (ha : a < 2 ^ 32) : u32 (x ||| a) &&& a = a := by
  apply Nat.eq_of_testBit_eq; intro i
  have h2 := testBit_lt_32 ha i
  simp only [Nat.testBit_and, Nat.testBit_or, testBit_u32]
  cases hai : a.testBit i <;> simp_all

/-! ## Watchdog thresholds -/

theorem adc_ioctl_upper (d : Defs) (cfg : Config) (s : State) (t : Nat)
    (hsw : cfg.CONFIG_STM32_ADC_SWTRIG = true) (hcmd : d.cmds_distinct) :
    adc_ioctl d cfg s d.ANIOC_WDOG_UPPER t =
      if t < tr1_lower d s then (-d.EINVAL, s)
      else (OK, adc_wdog_enable d (adc_putreg s .TR1
        (adc_getreg s .TR1 &&& not32 d.ADC_TR1_HT_MASK |||
          (u32 (t <<< d.ADC_TR1_HT_SHIFT) &&& d.ADC_TR1_HT_MASK)))) := by
  obtain ⟨h1, _, _⟩ := hcmd
  simp only [adc_ioctl, hsw, true_and, if_neg (Ne.symm h1), if_true, tr1_lower]

theorem adc_ioctl_lower (d : Defs) (cfg : Config) (s : State) (t : Nat)
    (hsw : cfg.CONFIG_STM32_ADC_SWTRIG = true) (hcmd : d.cmds_distinct) :
    adc_ioctl d cfg s d.ANIOC_WDOG_LOWER t =
      if t > tr1_upper d s then (-d.EINVAL, s)
      else (OK, adc_wdog_enable d (adc_putreg s .TR1
        (adc_getreg s .TR1 &&& not32 d.ADC_TR1_LT_MASK |||
          (u32 (t <<< d.ADC_TR1_LT_SHIFT) &&& d.ADC_TR1_LT_MASK)))) := by
  obtain ⟨_, h2, h3⟩ := hcmd
  simp only [adc_ioctl, hsw, true_and, if_neg (Ne.symm h2), if_neg (Ne.symm h3), if_true,
    tr1_upper]

/-- C4: in a build with the threshold commands, for every state and every
argument, each on its own: `ANIOC_WDOG_UPPER` with an argument below the lower
threshold held in `TR1` returns `-EINVAL`, and `ANIOC_WDOG_LOWER` with an
argument above the upper threshold held in `TR1` returns `-EINVAL`; in both
cases the whole state is left as it was: registers, block state and trace (no
register write). -/
theorem adc_ioctl_wdog_reject (d : Defs) (cfg : Config) (s : State) (tu tl : Nat)
    (hsw : cfg.CONFIG_STM32_ADC_SWTRIG = true) (hcmd : d.cmds_distinct) :
    (tu < tr1_lower d s → adc_ioctl d cfg s d.ANIOC_WDOG_UPPER tu = (-d.EINVAL, s)) ∧
      (tl > tr1_upper d s → adc_ioctl d cfg s d.ANIOC_WDOG_LOWER tl = (-d.EINVAL, s)) := by
  constructor
  · intro hu
    rw [adc_ioctl_upper d cfg s tu hsw hcmd, if_pos hu]
  · intro hl
    rw [adc_ioctl_lower d cfg s tl hsw hcmd, if_pos hl]

/-- C4 at concrete inputs: on the block in watchdog mode (thresholds 5 and 16)
upper 3 and lower 17 are rejected, and on the block with `TR1` at its reset
value (lower threshold 0, upper threshold 0xFFF, where no upper threshold can
be rejected) lower 0x1000 is rejected. -/
theorem adc_ioctl_wdog_reject_witness :
    adc_ioctl stm32l4x6 demoConfig wdogState stm32l4x6.ANIOC_WDOG_UPPER 3 =
        (-stm32l4x6.EINVAL, wdogState) ∧
      adc_ioctl stm32l4x6 demoConfig wdogState stm32l4x6.ANIOC_WDOG_LOWER 17 =
        (-stm32l4x6.EINVAL, wdogState) ∧
      tr1_lower stm32l4x6 resetTr1State = 0 ∧
      adc_ioctl stm32l4x6 demoConfig resetTr1State stm32l4x6.ANIOC_WDOG_LOWER 0x1000 =
        (-stm32l4x6.EINVAL, resetTr1State) :=
  ⟨(adc_ioctl_wdog_reject stm32l4x6 demoConfig wdogState 3 17 rfl (by decide)).1 (by decide),
    (adc_ioctl_wdog_reject stm32l4x6 demoConfig wdogState 3 17 rfl (by decide)).2 (by decide),
    by decide,
    (adc_ioctl_wdog_reject stm32l4x6 demoConfig resetTr1State 0 0x1000 rfl (by decide)).2
      (by decide)⟩

theorem adc_wdog_enable_IER (d : Defs) (s : State) :
    (adc_wdog_enable d s).regs.IER =
      u32 ((u32 s.regs.IER ||| d.ADC_INT_AWD1) &&& not32 d.ADC_INT_EOC) := rfl

theorem adc_wdog_enable_CFGR (d : Defs) (s : State) :
    (adc_wdog_enable d s).regs.CFGR =
      u32 (u32 s.regs.CFGR |||
        (d.ADC_CFGR_AWD1EN ||| d.ADC_CFGR_CONT ||| d.ADC_CFGR_OVRMOD)) := rfl

/-- What `adc_wdog_enable` leaves in `IER` and `CFGR`. -/
theorem adc_wdog_enable_mode (d : Defs) (s : State)
    (hdis : d.ADC_INT_AWD1 &&& d.ADC_INT_EOC = 0) (hA : d.ADC_INT_AWD1 < 2 ^ 32)
    (hC : d.ADC_CFGR_CONT < 2 ^ 32) (hW : d.ADC_CFGR_AWD1EN < 2 ^ 32) :
    (adc_wdog_enable d s).regs.IER &&& d.ADC_INT_EOC = 0 ∧
      (adc_wdog_enable d s).regs.IER &&& d.ADC_INT_AWD1 = d.ADC_INT_AWD1 ∧
      (adc_wdog_enable d s).regs.CFGR &&& d.ADC_CFGR_CONT = d.ADC_CFGR_CONT ∧
      (adc_wdog_enable d s).regs.CFGR &&& d.ADC_CFGR_AWD1EN = d.ADC_CFGR_AWD1EN := by
  rw [adc_wdog_enable_IER, adc_wdog_enable_CFGR]
  refine ⟨clear_then_test _ _, set_then_clear_test _ _ _ hdis hA, ?_, ?_⟩
  · apply Nat.eq_of_testBit_eq; intro i
    have h2 := testBit_lt_32 hC i
    simp only [Nat.testBit_and, Nat.testBit_or, testBit_u32]
    cases hai : d.ADC_CFGR_CONT.testBit i <;> simp_all
  · apply Nat.eq_of_testBit_eq; intro i
    have h2 := testBit_lt_32 hW i
    simp only [Nat.testBit_and, Nat.testBit_or, testBit_u32]
    cases hai : d.ADC_CFGR_AWD1EN.testBit i <;> simp_all

/-- C8: in a build with the threshold commands, whenever `ANIOC_WDOG_UPPER` or
`ANIOC_WDOG_LOWER` returns `OK`, the state after the call has
`ADC_INT_EOC` clear and `ADC_INT_AWD1` set in `IER`, and `ADC_CFGR_CONT` and
`ADC_CFGR_AWD1EN` set in `CFGR`, whatever `IER` and `CFGR` held before.  The
two interrupt masks are disjoint 32-bit values, `EINVAL` is not 0. -/
theorem adc_ioctl_wdog_accept (d : Defs) (cfg : Config) (s : State) (cmd : Int) (t : Nat)
    (hsw : cfg.CONFIG_STM32_ADC_SWTRIG = true) (hcmd : d.cmds_distinct)
    (hc : cmd = d.ANIOC_WDOG_UPPER ∨ cmd = d.ANIOC_WDOG_LOWER)
    (hE : d.EINVAL ≠ 0)
    (hdis : d.ADC_INT_AWD1 &&& d.ADC_INT_EOC = 0) (hA : d.ADC_INT_AWD1 < 2 ^ 32)
    (hC : d.ADC_CFGR_CONT < 2 ^ 32) (hW : d.ADC_CFGR_AWD1EN < 2 ^ 32)
    (hok : (adc_ioctl d cfg s cmd t).1 = OK) :
    (adc_ioctl d cfg s cmd t).2.regs.IER &&& d.ADC_INT_EOC = 0 ∧
      (adc_ioctl d cfg s cmd t).2.regs.IER &&& d.ADC_INT_AWD1 = d.ADC_INT_AWD1 ∧
      (adc_ioctl d cfg s cmd t).2.regs.CFGR &&& d.ADC_CFGR_CONT = d.ADC_CFGR_CONT ∧
      (adc_ioctl d cfg s cmd t).2.regs.CFGR &&& d.ADC_CFGR_AWD1EN = d.ADC_CFGR_AWD1EN := by
  have hne : (-d.EINVAL) ≠ OK := by unfold OK; omega
  rcases hc with rfl | rfl
  · rw [adc_ioctl_upper d cfg s t hsw hcmd] at hok ⊢
    by_cases h : t < tr1_lower d s
    · rw [if_pos h] at hok; exact absurd hok hne
    · rw [if_neg h]; exact adc_wdog_enable_mode d _ hdis hA hC hW
  · rw [adc_ioctl_lower d cfg s t hsw hcmd] at hok ⊢
    by_cases h : t > tr1_upper d s
    · rw [if_pos h] at hok; exact absurd hok hne
    · rw [if_neg h]; exact adc_wdog_enable_mode d _ hdis hA hC hW

/-- C8 on the freshly configured block (end-of-conversion interrupt enabled):
upper threshold 0x800 is accepted and switches the block to watchdog mode. -/
theorem adc_ioctl_wdog_accept_witness :
    (adc_ioctl stm32l4x6 demoConfig (adc_rxint stm32l4x6 demoState true)
        stm32l4x6.ANIOC_WDOG_UPPER 0x800).2.regs.IER &&& stm32l4x6.ADC_INT_EOC = 0 ∧
      (adc_ioctl stm32l4x6 demoConfig (adc_rxint stm32l4x6 demoState true)
        stm32l4x6.ANIOC_WDOG_UPPER 0x800).2.regs.IER &&& stm32l4x6.ADC_INT_AWD1
          = stm32l4x6.ADC_INT_AWD1 ∧
      (adc_ioctl stm32l4x6 demoConfig (adc_rxint stm32l4x6 demoState true)
        stm32l4x6.ANIOC_WDOG_UPPER 0x800).2.regs.CFGR &&& stm32l4x6.ADC_CFGR_CONT
          = stm32l4x6.ADC_CFGR_CONT ∧
      (adc_ioctl stm32l4x6 demoConfig (adc_rxint stm32l4x6 demoState true)
        stm32l4x6.ANIOC_WDOG_UPPER 0x800).2.regs.CFGR &&& stm32l4x6.ADC_CFGR_AWD1EN
          = stm32l4x6.ADC_CFGR_AWD1EN :=
  adc_ioctl_wdog_accept stm32l4x6 demoConfig (adc_rxint stm32l4x6 demoState true)
    stm32l4x6.ANIOC_WDOG_UPPER 0x800 rfl (by decide) (Or.inl rfl) (by decide) (by decide)
    (by decide) (by decide) (by decide) (by decide)

/-! ## Power-management gate -/

/-- C10: `pm_prepare` returns the state it was given (no register write, no
change of the block state); it returns `-EBUSY` exactly when the requested
state is `PM_IDLE` or deeper and `ADC_CR_ADSTART` reads set, and `OK` in every
other case, so for every state once `ADSTART` reads clear and for `PM_NORMAL`
always.  `EBUSY` is not 0 and `PM_NORMAL` lies below `PM_IDLE`. -/
theorem pm_prepare_gate (d : Defs) (s : State) (state : Int)
    (hE : d.EBUSY ≠ 0) (hN : d.PM_NORMAL < d.PM_IDLE) :
    (pm_prepare d s state).2 = s ∧
      ((pm_prepare d s state).1 = -d.EBUSY ↔
        (state ≥ d.PM_IDLE ∧ adc_getreg s .CR &&& d.ADC_CR_ADSTART ≠ 0)) ∧
      ((pm_prepare d s state).1 = OK ↔
        ¬ (state ≥ d.PM_IDLE ∧ adc_getreg s .CR &&& d.ADC_CR_ADSTART ≠ 0)) ∧
      (adc_getreg s .CR &&& d.ADC_CR_ADSTART = 0 → (pm_prepare d s state).1 = OK) ∧
      (pm_prepare d s d.PM_NORMAL).1 = OK := by
  have hne : (-d.EBUSY) ≠ OK := by unfold OK; omega
  have hnorm : ¬ (d.PM_NORMAL ≥ d.PM_IDLE ∧ adc_getreg s .CR &&& d.ADC_CR_ADSTART ≠ 0) := by
    intro ⟨h, _⟩; omega
  have heq : ∀ st, pm_prepare d s st =
      if st ≥ d.PM_IDLE ∧ adc_getreg s .CR &&& d.ADC_CR_ADSTART ≠ 0 then (-d.EBUSY, s)
      else (OK, s) := fun _ => rfl
  rw [heq state, heq d.PM_NORMAL, if_neg hnorm]
  by_cases h : state ≥ d.PM_IDLE ∧ adc_getreg s .CR &&& d.ADC_CR_ADSTART ≠ 0
  · rw [if_pos h]
    exact ⟨rfl, ⟨fun _ => h, fun _ => rfl⟩, ⟨fun h' => absurd h' hne, fun h' => absurd h h'⟩,
      fun h0 => absurd h0 h.2, rfl⟩
  · rw [if_neg h]
    exact ⟨rfl, ⟨fun h' => absurd h'.symm hne, fun h' => absurd h' h⟩,
      ⟨fun _ => h, fun _ => rfl⟩, fun _ => rfl, rfl⟩

/-- C10 on the block in watchdog mode, where a conversion is running
(`ADSTART` set): the request for `PM_IDLE` is refused, `PM_NORMAL` is granted. -/
theorem pm_prepare_gate_witness :
    (pm_prepare stm32l4x6 wdogState 1).2 = wdogState ∧
      ((pm_prepare stm32l4x6 wdogState 1).1 = -stm32l4x6.EBUSY ↔
        ((1 : Int) ≥ stm32l4x6.PM_IDLE ∧
          adc_getreg wdogState .CR &&& stm32l4x6.ADC_CR_ADSTART ≠ 0)) ∧
      ((pm_prepare stm32l4x6 wdogState 1).1 = OK ↔
        ¬ ((1 : Int) ≥ stm32l4x6.PM_IDLE ∧
          adc_getreg wdogState .CR &&& stm32l4x6.ADC_CR_ADSTART ≠ 0)) ∧
      (adc_getreg wdogState .CR &&& stm32l4x6.ADC_CR_ADSTART = 0 →
        (pm_prepare stm32l4x6 wdogState 1).1 = OK) ∧
      (pm_prepare stm32l4x6 wdogState stm32l4x6.PM_NORMAL).1 = OK :=
  pm_prepare_gate stm32l4x6 wdogState 1 (by decide) (by decide)

/-! ## Interrupt enable -/

theorem or_keeps_outside (x e m : Nat) (hm : m &&& e = 0) :
    u32 (u32 (u32 x ||| e)) &&& m = u32 x &&& m := by
  apply Nat.eq_of_testBit_eq; intro i
  have h1 := and_eq_zero_testBit hm i
  simp only [Nat.testBit_and, Nat.testBit_or, testBit_u32]
  cases hmi : m.testBit i <;> cases hei : e.testBit i <;> simp_all

theorem or_sets (x e : Nat) : u32 (u32 (u32 x ||| e)) &&& u32 e = u32 e := by
  apply Nat.eq_of_testBit_eq; intro i
  simp only [Nat.testBit_and, Nat.testBit_or, testBit_u32]
  cases hei : e.testBit i <;> cases decide (i < 32) <;> simp

theorem clear_keeps_outside (x k m : Nat) (hm : m &&& k = 0) :
    u32 (u32 (u32 x &&& not32 k)) &&& m = u32 x &&& m := by
  apply Nat.eq_of_testBit_eq; intro i
  have h1 := and_eq_zero_testBit hm i
  simp only [Nat.testBit_and, testBit_u32, testBit_not32]
  cases hmi : m.testBit i <;> cases hki : k.testBit i <;> cases decide (i < 32) <;> simp_all

theorem clear_clears (x k : Nat) : u32 (u32 (u32 x &&& not32 k)) &&& k = 0 := by
  apply Nat.eq_of_testBit_eq; intro i
  simp only [Nat.testBit_and, testBit_u32, testBit_not32, Nat.zero_testBit]
  cases k.testBit i <;> simp

/-- C9, the claim as stated fails: on the block in watchdog mode
`adc_rxint(false)` clears the watchdog interrupt enable, which was set. -/
theorem adc_rxint_disable_clears_watchdog :
    adc_getreg wdogState .IER &&& stm32l4x6.ADC_INT_AWD1 = 0x80 ∧
      adc_getreg (adc_rxint stm32l4x6 wdogState false) .IER &&& stm32l4x6.ADC_INT_AWD1 = 0 := by
  decide

/-- C9 as amended: `adc_rxint` writes `IER` once and nothing else, and leaves
the block state and every other register alone.  Enabling sets the bits of
`ADC_INT_EOC` and keeps every bit outside `ADC_INT_EOC`; disabling clears
every bit of `ADC_INT_MASK` and keeps every bit outside `ADC_INT_MASK`. -/
theorem adc_rxint_frame (d : Defs) (s : State) (b : Bool) :
    (adc_rxint d s b).priv = s.priv ∧ (adc_rxint d s b).rcc = s.rcc ∧
      (∀ r, r ≠ Reg.IER → (adc_rxint d s b).regs.get r = s.regs.get r) ∧
      (adc_rxint d s b).trace = s.trace ++ [Ev.putreg .IER (adc_rxint d s b).regs.IER] ∧
      adc_getreg (adc_rxint d s true) .IER &&& u32 d.ADC_INT_EOC = u32 d.ADC_INT_EOC ∧
      (∀ m, m &&& d.ADC_INT_EOC = 0 →
        adc_getreg (adc_rxint d s true) .IER &&& m = adc_getreg s .IER &&& m) ∧
      adc_getreg (adc_rxint d s false) .IER &&& d.ADC_INT_MASK = 0 ∧
      (∀ m, m &&& d.ADC_INT_MASK = 0 →
        adc_getreg (adc_rxint d s false) .IER &&& m = adc_getreg s .IER &&& m) := by
  refine ⟨rfl, rfl, ?_, rfl, or_sets _ _, fun m hm => or_keeps_outside _ _ _ hm,
    clear_clears _ _, fun m hm => clear_keeps_outside _ _ _ hm⟩
  intro r hr
  cases r <;> first | rfl | exact absurd rfl hr

/-! ## Watchdog trip -/

/-- C7, the claim as stated fails: with the watchdog flag and the
end-of-conversion flag both latched (status 0x84), one invocation writes the
stop request, delivers a sample and advances the cursor from 0 to 1. -/
theorem adc_interrupt_both_flags :
    demoState.priv.current = 0 ∧
      (hw_event stm32l4x6 demoState 0x84 0x123).trace =
        [Ev.putreg .CR 0x10, Ev.adc_receive 3 0x123] ∧
      (hw_event stm32l4x6 demoState 0x84 0x123).priv.current = 1 := by
  decide

/-- C7 as amended: an invocation of `adc_interrupt` entered with
`ADC_INT_AWD1` latched writes the stop request (`CR` with `ADC_CR_ADSTP` ORed
in) exactly once.  With the end-of-conversion flag clear that write is all it
does: no `adc_receive` call, block state unchanged.  With the
end-of-conversion flag latched as well, the end-of-conversion branch runs
after it: one `adc_receive` call for `chanlist[current]` with the masked data
register, and the cursor advances. -/
theorem adc_interrupt_watchdog (d : Defs) (s : State)
    (hawd : adc_getreg s .ISR &&& d.ADC_INT_AWD1 ≠ 0) :
    (adc_getreg s .ISR &&& d.ADC_INT_EOC = 0 →
        (adc_interrupt d s).2.trace =
          s.trace ++ [Ev.putreg .CR (u32 (adc_getreg s .CR ||| d.ADC_CR_ADSTP))] ∧
        (adc_interrupt d s).2.priv = s.priv) ∧
      (adc_getreg s .ISR &&& d.ADC_INT_EOC ≠ 0 →
        (adc_interrupt d s).2.trace =
          s.trace ++ [Ev.putreg .CR (u32 (adc_getreg s .CR ||| d.ADC_CR_ADSTP)),
            Ev.adc_receive (chan s.priv s.priv.current)
              (toInt32 (adc_getreg s .DR &&& d.ADC_DR_MASK))] ∧
        (adc_interrupt d s).2.priv =
          { s.priv with current := next_cursor s.priv s.priv.current }) := by
  constructor
  · intro h0
    simp only [adc_interrupt, hawd, h0, ne_eq, not_true_eq_false, not_false_eq_true, if_true,
      if_false]
    exact ⟨rfl, rfl⟩
  · intro h1
    have hp : (adc_startconv d s false).priv = s.priv := rfl
    have ht : (adc_startconv d s false).trace =
        s.trace ++ [Ev.putreg .CR (u32 (adc_getreg s .CR ||| d.ADC_CR_ADSTP))] := rfl
    have hd : adc_getreg (adc_startconv d s false) .DR = adc_getreg s .DR := rfl
    simp only [adc_interrupt, hawd, h1, ne_eq, not_false_eq_true, if_true, next_cursor, hp, ht,
      hd]
    by_cases hc : u8 (s.priv.current + 1) ≥ s.priv.nchannels
    · simp only [if_pos hc, List.append_assoc, List.singleton_append, and_self]
    · simp only [if_neg hc, List.append_assoc, List.singleton_append, and_self]

/-- C7 on the three-channel block with only the watchdog flag latched
(status 0x80). -/
theorem adc_interrupt_watchdog_witness :
    (adc_interrupt stm32l4x6
        { demoState with regs := { zeroRegs with ISR := 0x80, DR := 0xfff } }).2.trace =
        [Ev.putreg .CR 0x10] ∧
      (adc_interrupt stm32l4x6
        { demoState with regs := { zeroRegs with ISR := 0x80, DR := 0xfff } }).2.priv =
        demoState.priv :=
  (adc_interrupt_watchdog stm32l4x6
    { demoState with regs := { zeroRegs with ISR := 0x80, DR := 0xfff } } (by decide)).1
    (by decide)

/-! ## Construction -/

/-- C5, the code at `nchannels = 17` on block 1.  In a build without debug
assertions the call returns the handle of block 1 and has stored the count 17
and the first 16 of the 17 identifiers in the block state; in a build with
debug assertions the assertion fails.  In neither build does the call return
`NULL`. -/
theorem stm32_adcinitialize_seventeen :
    stm32_adcinitialize demoConfig demoGlobals OK 1 (List.range 17) 17 =
        .ret (some 1,
          { demoGlobals with
            g_adcpriv1 := { demoGlobals.g_adcpriv1 with
              nchannels := 17,
              chanlist := [0, 1, 2, 3, 4, 5, 6, 7, 8, 9, 10, 11, 12, 13, 14, 15] } }) ∧
      stm32_adcinitialize { demoConfig with CONFIG_DEBUG := true } demoGlobals OK 1
        (List.range 17) 17 = .assert_failed := by
  decide

/-! ## Interrupt sources -/

/-- C3 on the three-channel block: count field 2, slots 3, 7, 11, the other
thirteen slots zero. -/
theorem adc_setup_sequence_encoding_witness :
    ∃ s', adc_setup stm32l4x6 demoConfig demoHw 2 OK demoState = .ret (OK, s') ∧
      sqr_count stm32l4x6 s'.regs = demoState.priv.nchannels - 1 ∧
      ∀ k, k < 16 →
        sqr_slot s'.regs k = if k < demoState.priv.nchannels then chan demoState.priv k else 0 :=
  adc_setup_sequence_encoding stm32l4x6 demoConfig demoHw 2 demoState (by decide) (by decide)
    (by decide) (by decide) rfl rfl rfl rfl demoHw_calibrates demoHw_gets_ready

/-! ## Unsupported commands, software trigger -/

/-- C12: for every command code other than `ANIOC_TRIGGER`, `ANIOC_WDOG_UPPER`
and `ANIOC_WDOG_LOWER` and every argument, `adc_ioctl` returns `-ENOTTY` and
the state it was given (no register write, block state unchanged); in a build
with the software-trigger commands `ANIOC_TRIGGER` returns `OK` for every
argument. -/
theorem adc_ioctl_unsupported (d : Defs) (cfg : Config) (s : State) (cmd : Int)
    (arg targ : Nat)
    (h1 : cmd ≠ d.ANIOC_TRIGGER) (h2 : cmd ≠ d.ANIOC_WDOG_UPPER)
    (h3 : cmd ≠ d.ANIOC_WDOG_LOWER)
    (hsw : cfg.CONFIG_STM32_ADC_SWTRIG = true) :
    adc_ioctl d cfg s cmd arg = (-d.ENOTTY, s) ∧
      (adc_ioctl d cfg s d.ANIOC_TRIGGER targ).1 = OK := by
  constructor
  · simp only [adc_ioctl, h1, h2, h3, and_false, if_false]
  · simp only [adc_ioctl, hsw, and_self, if_true]

/-- C12 on the three-channel block: command 0x2000 with argument 9 is not
supported, the trigger with argument 7 is accepted. -/
theorem adc_ioctl_unsupported_witness :
    adc_ioctl stm32l4x6 demoConfig demoState 0x2000 9 = (-stm32l4x6.ENOTTY, demoState) ∧
      (adc_ioctl stm32l4x6 demoConfig demoState stm32l4x6.ANIOC_TRIGGER 7).1 = OK :=
  adc_ioctl_unsupported stm32l4x6 demoConfig demoState 0x2000 9 7 (by decide) (by decide)
    (by decide) rfl

/-! ## Threshold ordering -/

/-- C13, the code at an argument wider than the threshold field: with lower
threshold 5 and upper threshold 16 in `TR1`, `ANIOC_WDOG_UPPER` with argument
0x1000 passes the comparison with the lower threshold, returns `OK` and
stores the argument cut to 12 bits: afterwards the upper threshold is 0, the
lower threshold still 5. -/
theorem adc_ioctl_upper_wide_argument :
    tr1_lower stm32l4x6 wdogState = 5 ∧ tr1_upper stm32l4x6 wdogState = 16 ∧
      (adc_ioctl stm32l4x6 demoConfig wdogState stm32l4x6.ANIOC_WDOG_UPPER 0x1000).1 = OK ∧
      tr1_lower stm32l4x6
        (adc_ioctl stm32l4x6 demoConfig wdogState stm32l4x6.ANIOC_WDOG_UPPER 0x1000).2 = 5 ∧
      tr1_upper stm32l4x6
        (adc_ioctl stm32l4x6 demoConfig wdogState stm32l4x6.ANIOC_WDOG_UPPER 0x1000).2 = 0 := by
  decide

/-! ## Cursor range -/

theorem next_cursor_lt (priv : stm32_dev_s) (c : Nat) (h : 1 ≤ priv.nchannels) :
    next_cursor priv c < priv.nchannels := by
  unfold next_cursor
  split <;> omega

/-- An invocation of `adc_interrupt` leaves the block state alone or moves the
cursor to the next position. -/
theorem adc_interrupt_priv (d : Defs) (s : State) :
    (adc_interrupt d s).2.priv = s.priv ∨
      (adc_interrupt d s).2.priv =
        { s.priv with current := next_cursor s.priv s.priv.current } := by
  have hp : (adc_startconv d s false).priv = s.priv := rfl
  by_cases he : adc_getreg s .ISR &&& d.ADC_INT_EOC = 0
  · left
    by_cases ha : adc_getreg s .ISR &&& d.ADC_INT_AWD1 = 0
    · simp only [adc_interrupt, ha, he, ne_eq, not_true_eq_false, if_false]
    · simp only [adc_interrupt, ha, he, ne_eq, not_true_eq_false, not_false_eq_true, if_true,
        if_false, hp]
  · right
    by_cases hc : u8 (s.priv.current + 1) ≥ s.priv.nchannels
    · by_cases ha : adc_getreg s .ISR &&& d.ADC_INT_AWD1 = 0
      · simp only [adc_interrupt, ha, he, ne_eq, not_true_eq_false, not_false_eq_true, if_true,
          if_false, next_cursor, if_pos hc]
      · simp only [adc_interrupt, ha, he, ne_eq, not_false_eq_true, if_true, next_cursor, hp,
          if_pos hc]
    · by_cases ha : adc_getreg s .ISR &&& d.ADC_INT_AWD1 = 0
      · simp only [adc_interrupt, ha, he, ne_eq, not_true_eq_false, not_false_eq_true, if_true,
          if_false, next_cursor, if_neg hc]
      · simp only [adc_interrupt, ha, he, ne_eq, not_false_eq_true, if_true, next_cursor, hp,
          if_neg hc]

/-- A serviced hardware event leaves the block state alone or moves the cursor
to the next position. -/
theorem hw_event_priv (d : Defs) (s : State) (isr dr : Nat) :
    (hw_event d s isr dr).priv = s.priv ∨
      (hw_event d s isr dr).priv =
        { s.priv with current := next_cursor s.priv s.priv.current } :=
  adc_interrupt_priv d { s with regs := { s.regs with ISR := u32 isr, DR := u32 dr } }

theorem adc_ioctl_priv (d : Defs) (cfg : Config) (s : State) (cmd : Int) (arg : Nat) :
    (adc_ioctl d cfg s cmd arg).2.priv = s.priv := by
  unfold adc_ioctl
  simp only []
  split
  · rfl
  · split
    · split <;> rfl
    · split
      · split <;> rfl
      · rfl

/-- Every operation keeps the channel count and the channel array, and leaves
the cursor below the channel count. -/
theorem step_cursor (d : Defs) (cfg : Config) (s : State) (op : Op)
    (hn : 1 ≤ s.priv.nchannels) (hc : s.priv.current < s.priv.nchannels) :
    (step d cfg s op).priv.nchannels = s.priv.nchannels ∧
      (step d cfg s op).priv.chanlist = s.priv.chanlist ∧
      (step d cfg s op).priv.current < s.priv.nchannels := by
  cases op with
  | rxint enable => exact ⟨rfl, rfl, hc⟩
  | ioctl cmd arg =>
    show (adc_ioctl d cfg s cmd arg).2.priv.nchannels = _ ∧
      (adc_ioctl d cfg s cmd arg).2.priv.chanlist = _ ∧
      (adc_ioctl d cfg s cmd arg).2.priv.current < _
    rw [adc_ioctl_priv]; exact ⟨rfl, rfl, hc⟩
  | interrupt isr dr =>
    show (hw_event d s isr dr).priv.nchannels = _ ∧ (hw_event d s isr dr).priv.chanlist = _ ∧
      (hw_event d s isr dr).priv.current < _
    rcases hw_event_priv d s isr dr with h | h
    · rw [h]; exact ⟨rfl, rfl, hc⟩
    · rw [h]; exact ⟨rfl, rfl, next_cursor_lt s.priv _ hn⟩

theorem run_cursor (d : Defs) (cfg : Config) (ops : List Op) :
    ∀ s : State, 1 ≤ s.priv.nchannels → s.priv.current < s.priv.nchannels →
      (run d cfg s ops).priv.nchannels = s.priv.nchannels ∧
        (run d cfg s ops).priv.chanlist = s.priv.chanlist ∧
        (run d cfg s ops).priv.current < s.priv.nchannels := by
  induction ops with
  | nil => intro s _ hc; exact ⟨rfl, rfl, hc⟩
  | cons o os ih =>
    intro s hn hc
    obtain ⟨h1, h2, h3⟩ := step_cursor d cfg s o hn hc
    obtain ⟨k1, k2, k3⟩ := ih (step d cfg s o) (by rw [h1]; exact hn) (by rw [h1]; exact h3)
    exact ⟨k1.trans h1, k2.trans h2, by rw [← h1]; exact k3⟩

theorem Globals.priv_setPriv (g : Globals) (k : Nat) (p : stm32_dev_s) :
    (g.setPriv k p).priv k = p := by
  unfold Globals.setPriv Globals.priv
  by_cases h1 : k = 1
  · simp [h1]
  · by_cases h2 : k = 2
    · simp [h2]
    · simp [h1, h2]

/-- What a returned handle says about the selected block: the count and the
channel array are the ones `stm32_adcinitialize` stored. -/
theorem stm32_adcinitialize_ret (cfg : Config) (g g' : Globals) (pm_register intf : Int)
    (chanlist : List Nat) (nchannels : Int) (k : Nat)
    (h : stm32_adcinitialize cfg g pm_register intf chanlist nchannels = .ret (some k, g')) :
    (g'.priv k).nchannels = u8 (ofInt32 nchannels) ∧
      (g'.priv k).chanlist =
        memcpy_chanlist (g.priv k).chanlist chanlist (ofInt32 nchannels) := by
  unfold stm32_adcinitialize at h
  simp only [] at h
  split at h
  · simp at h
  · rename_i k'
    split at h
    · simp at h
    · split at h
      · simp at h
      · simp only [Outcome.ret.injEq, Prod.mk.injEq, Option.some.injEq] at h
        obtain ⟨rfl, rfl⟩ := h
        rw [Globals.priv_setPriv]
        exact ⟨rfl, rfl⟩

theorem u8_ofInt32 (n : Int) (h1 : 1 ≤ n) (h16 : n ≤ 16) : ((u8 (ofInt32 n) : Nat) : Int) = n := by
  unfold u8 ofInt32
  omega

theorem memcpy_chanlist_length (dst src : List Nat) (n : Nat) :
    (memcpy_chanlist dst src n).length = 16 := by
  simp [memcpy_chanlist, ADC_MAX_SAMPLES]

/-- C11: after a `stm32_adcinitialize` that returned a handle for a channel
count in 1..16, `adc_setup` (interrupt attached, hardware answering the waits)
returns `OK`, and in every state reached from there by any sequence of
`adc_rxint`, `adc_ioctl` and serviced hardware events the channel count is
still the one given, the cursor is below it, and the count is within the
16-entry array: `chanlist[current]` is a position of the programmed list. -/
theorem cursor_in_list (d : Defs) (cfg : Config) (hw : Hw) (fuel : Nat) (g g' : Globals)
    (pm_register intf : Int) (chanlist : List Nat) (nchannels : Int) (k : Nat)
    (regs : Regs) (rcc : Nat) (trace : List Ev)
    (h1 : 1 ≤ nchannels) (h16 : nchannels ≤ 16)
    (hinit : stm32_adcinitialize cfg g pm_register intf chanlist nchannels = .ret (some k, g'))
    (hcal : hw.calibrates d fuel) (hrdy : hw.gets_ready d fuel) :
    ∃ s0, adc_setup d cfg hw fuel OK
        { priv := g'.priv k, regs := regs, rcc := rcc, trace := trace } = .ret (OK, s0) ∧
      ∀ ops,
        ((run d cfg s0 ops).priv.nchannels : Int) = nchannels ∧
        (run d cfg s0 ops).priv.current < (run d cfg s0 ops).priv.nchannels ∧
        (run d cfg s0 ops).priv.nchannels ≤ (run d cfg s0 ops).priv.chanlist.length ∧
        (run d cfg s0 ops).priv.chanlist.length = 16 := by
  obtain ⟨hn, hl⟩ := stm32_adcinitialize_ret cfg g g' pm_register intf chanlist nchannels k hinit
  have hni : (((g'.priv k).nchannels : Nat) : Int) = nchannels := by
    rw [hn]; exact u8_ofInt32 nchannels h1 h16
  have hn1 : 1 ≤ (g'.priv k).nchannels := by omega
  have hn16 : (g'.priv k).nchannels ≤ 16 := by omega
  have hlen : (g'.priv k).chanlist.length = 16 := by rw [hl]; exact memcpy_chanlist_length _ _ _
  obtain ⟨s0, hret, hp, _⟩ := adc_setup_ret d cfg hw fuel
    { priv := g'.priv k, regs := regs, rcc := rcc, trace := trace } hn16 hcal hrdy
  rw [setup_program_priv] at hp
  have hs0n : s0.priv.nchannels = (g'.priv k).nchannels := by rw [hp]
  have hs0l : s0.priv.chanlist = (g'.priv k).chanlist := by rw [hp]
  have hs0c : s0.priv.current = 0 := by rw [hp]
  refine ⟨s0, hret, ?_⟩
  intro ops
  obtain ⟨r1, r2, r3⟩ := run_cursor d cfg ops s0 (by omega) (by omega)
  rw [r1, r2, hs0n, hs0l, hlen]
  rw [hs0n] at r3
  exact ⟨hni, r3, hn16, rfl⟩

/-- C11 on block 1 initialised with the channels 3, 7, 11. -/
theorem cursor_in_list_witness :
    ∃ s0, adc_setup stm32l4x6 demoConfig demoHw 2 OK
        { priv := ({ demoGlobals with g_adcpriv1 := demoState.priv } : Globals).priv 1,
          regs := zeroRegs, rcc := 0, trace := [] } = .ret (OK, s0) ∧
      ∀ ops,
        ((run stm32l4x6 demoConfig s0 ops).priv.nchannels : Int) = 3 ∧
        (run stm32l4x6 demoConfig s0 ops).priv.current <
          (run stm32l4x6 demoConfig s0 ops).priv.nchannels ∧
        (run stm32l4x6 demoConfig s0 ops).priv.nchannels ≤
          (run stm32l4x6 demoConfig s0 ops).priv.chanlist.length ∧
        (run stm32l4x6 demoConfig s0 ops).priv.chanlist.length = 16 :=
  cursor_in_list stm32l4x6 demoConfig demoHw 2 demoGlobals
    { demoGlobals with g_adcpriv1 := demoState.priv } OK 1 [3, 7, 11] 3 1 zeroRegs 0 []
    (by decide) (by decide) (by decide) demoHw_calibrates demoHw_gets_ready

/-! ## Sequence programming with arbitrary 8-bit identifiers -/

theorem chan_lt (priv : stm32_dev_s) (j : Nat) : chan priv j < 2 ^ 8 := by
  unfold chan u8
  exact Nat.mod_lt _ (by norm_num)

/-- Bit `e` of the first slot of a loop. -/
theorem sqr_loop_first (priv : stm32_dev_s) (lim f i off r e : Nat)
    (h32 : off + e < 32) (he : e < 6) :
    (sqr_loop priv lim f i off r).testBit (off + e) =
      (r.testBit (off + e) ||
        (decide (0 < f ∧ i < priv.nchannels ∧ i < lim) && (chan priv i).testBit e)) := by
  cases f with
  | zero => simp [sqr_loop]
  | succ f =>
    unfold sqr_loop
    split
    · rename_i hcond
      rw [sqr_loop_low priv lim f (i + 1) (off + 6) _ _ (by omega) h32, testBit_u32,
        Nat.testBit_or, testBit_u32, Nat.testBit_shiftLeft]
      simp [h32, hcond.1, hcond.2]
    · rename_i hcond
      have : decide (0 < f + 1 ∧ i < priv.nchannels ∧ i < lim) = false :=
        decide_eq_false fun h => hcond h.2
      rw [this, Bool.false_and, Bool.or_false]

/-- Bit `e` of a later slot of a loop: bit `e` of the identifier of that place
and bit `e + 6` of the identifier of the place before. -/
theorem sqr_loop_later (priv : stm32_dev_s) (lim : Nat) :
    ∀ f i off r t e, e < 6 → off + 6 * (t + 1) + e < 32 →
      (sqr_loop priv lim f i off r).testBit (off + 6 * (t + 1) + e) =
        (r.testBit (off + 6 * (t + 1) + e) ||
          (decide (t + 1 < f ∧ i + (t + 1) < priv.nchannels ∧ i + (t + 1) < lim) &&
            (chan priv (i + (t + 1))).testBit e) ||
          (decide (t < f ∧ i + t < priv.nchannels ∧ i + t < lim) &&
            (chan priv (i + t)).testBit (e + 6))) := by
  intro f
  induction f with
  | zero => intro i off r t e _ _; simp [sqr_loop]
  | succ f ih =>
    intro i off r t e he h32
    unfold sqr_loop
    split
    · rename_i hcond
      have hr' : ∀ b, b < 32 →
          (u32 (r ||| u32 (chan priv i <<< off))).testBit b =
            (r.testBit b || (decide (b ≥ off) && (chan priv i).testBit (b - off))) := by
        intro b hb
        rw [testBit_u32, Nat.testBit_or, testBit_u32, Nat.testBit_shiftLeft]
        simp [hb]
      cases t with
      | zero =>
        have hpos : off + 6 * (0 + 1) + e = (off + 6) + e := by omega
        have hsub : off + 6 + e - off = e + 6 := by omega
        rw [hpos, sqr_loop_first priv lim f (i + 1) (off + 6) _ e (by omega) he,
          hr' _ (by omega), hsub]
        have h1 : (0 < f ∧ i + 1 < priv.nchannels ∧ i + 1 < lim) ↔
            (0 + 1 < f + 1 ∧ i + (0 + 1) < priv.nchannels ∧ i + (0 + 1) < lim) := by omega
        have h2 : (0 < f + 1 ∧ i + 0 < priv.nchannels ∧ i + 0 < lim) := by
          exact ⟨by omega, hcond.1, hcond.2⟩
        have hge : off + 6 + e ≥ off := by omega
        have d1 : decide (0 + 1 < f + 1 ∧ i + (0 + 1) < priv.nchannels ∧ i + (0 + 1) < lim) =
            decide (0 < f ∧ i + 1 < priv.nchannels ∧ i + 1 < lim) := by
          rw [decide_eq_decide]; exact h1.symm
        have d2 : decide (0 < f + 1 ∧ i + 0 < priv.nchannels ∧ i + 0 < lim) = true :=
          decide_eq_true h2
        have d3 : decide (off + 6 + e ≥ off) = true := decide_eq_true hge
        rw [d1, d2, d3]
        simp only [Nat.add_zero, Nat.zero_add, Bool.true_and]
        cases r.testBit (off + 6 + e) <;> cases (chan priv i).testBit (e + 6) <;>
          cases decide (0 < f ∧ i + 1 < priv.nchannels ∧ i + 1 < lim) <;>
          cases (chan priv (i + 1)).testBit e <;> rfl
      | succ t =>
        have hpos : off + 6 * (t + 1 + 1) + e = (off + 6) + 6 * (t + 1) + e := by omega
        have hhigh : (chan priv i).testBit (off + 6 + 6 * (t + 1) + e - off) = false :=
          testBit_of_lt_two_pow (chan_lt priv i) (by omega)
        rw [hpos, ih (i + 1) (off + 6) _ t e he (by omega), hr' _ (by omega), hhigh]
        have h1 : (t + 1 < f ∧ i + 1 + (t + 1) < priv.nchannels ∧ i + 1 + (t + 1) < lim) ↔
            (t + 1 + 1 < f + 1 ∧ i + (t + 1 + 1) < priv.nchannels ∧ i + (t + 1 + 1) < lim) := by
          omega
        have h2 : (t < f ∧ i + 1 + t < priv.nchannels ∧ i + 1 + t < lim) ↔
            (t + 1 < f + 1 ∧ i + (t + 1) < priv.nchannels ∧ i + (t + 1) < lim) := by omega
        have e1 : i + 1 + (t + 1) = i + (t + 1 + 1) := by omega
        have e2 : i + 1 + t = i + (t + 1) := by omega
        have d1 : decide (t + 1 < f ∧ i + 1 + (t + 1) < priv.nchannels ∧ i + 1 + (t + 1) < lim) =
            decide (t + 1 + 1 < f + 1 ∧ i + (t + 1 + 1) < priv.nchannels ∧
              i + (t + 1 + 1) < lim) := by
          rw [decide_eq_decide]; exact h1
        have d2 : decide (t < f ∧ i + 1 + t < priv.nchannels ∧ i + 1 + t < lim) =
            decide (t + 1 < f + 1 ∧ i + (t + 1) < priv.nchannels ∧ i + (t + 1) < lim) := by
          rw [decide_eq_decide]; exact h2
        rw [d1, d2, e1, e2, Bool.and_false, Bool.or_false]
    · rename_i hcond
      have n1 : ¬ (t + 1 < f + 1 ∧ i + (t + 1) < priv.nchannels ∧ i + (t + 1) < lim) := by
        intro ⟨_, h1, h2⟩; exact hcond ⟨by omega, by omega⟩
      have n2 : ¬ (t < f + 1 ∧ i + t < priv.nchannels ∧ i + t < lim) := by
        intro ⟨_, h1, h2⟩; exact hcond ⟨by omega, by omega⟩
      rw [decide_eq_false n1, decide_eq_false n2, Bool.false_and, Bool.false_and, Bool.or_false,
        Bool.or_false]

theorem chan_shift_lt (priv : stm32_dev_s) (j : Nat) : chan priv j >>> 6 < 2 ^ 6 := by
  have h := chan_lt priv j
  rw [Nat.shiftRight_eq_div_pow]
  norm_num at h ⊢
  omega

/-- A slot of a register that one loop of `adc_setup` built from zero, for
arbitrary byte identifiers. -/
theorem slot_u32_loop_bytes (priv : stm32_dev_s) (lim f i off t x : Nat)
    (hx : ∀ b, off ≤ b → x.testBit b = false)
    (h32 : off + 6 * t + 6 ≤ 32) (ht : t < f) (hlim : i + t < lim) :
    (u32 (sqr_loop priv lim f i off 0 ||| x) >>> (off + 6 * t)) % 2 ^ 6 =
      (if i + t < priv.nchannels then chan priv (i + t) % 2 ^ 6 else 0) |||
        (if 1 ≤ t ∧ i + t - 1 < priv.nchannels then chan priv (i + t - 1) >>> 6 else 0) := by
  apply field_eq
  · apply Nat.or_lt_two_pow
    · split
      · exact Nat.mod_lt _ (by norm_num)
      · norm_num
    · split
      · exact chan_shift_lt priv _
      · norm_num
  · intro e he
    have hpos : off + 6 * t + e < 32 := by omega
    rw [testBit_u32, Nat.testBit_or, hx _ (by omega), Bool.or_false, decide_eq_true hpos,
      Bool.true_and, Nat.testBit_or]
    cases t with
    | zero =>
      have hc2 : ¬ (1 ≤ 0 ∧ i + 0 - 1 < priv.nchannels) := by omega
      rw [if_neg hc2, Nat.zero_testBit, Bool.or_false]
      have := sqr_loop_first priv lim f i off 0 e (by omega) he
      simp only [Nat.mul_zero, Nat.add_zero] at this ⊢
      rw [this, Nat.zero_testBit, Bool.false_or]
      by_cases hn : i < priv.nchannels
      · rw [if_pos hn, Nat.testBit_mod_two_pow, decide_eq_true he, Bool.true_and,
          decide_eq_true (show 0 < f ∧ i < priv.nchannels ∧ i < lim from ⟨ht, hn, hlim⟩),
          Bool.true_and]
      · rw [if_neg hn, Nat.zero_testBit,
          decide_eq_false (show ¬ (0 < f ∧ i < priv.nchannels ∧ i < lim) from fun h => hn h.2.1),
          Bool.false_and]
    | succ t =>
      rw [sqr_loop_later priv lim f i off 0 t e he (by omega), Nat.zero_testBit, Bool.false_or]
      have hidx : i + (t + 1) - 1 = i + t := by omega
      rw [hidx]
      congr 1
      · by_cases hn : i + (t + 1) < priv.nchannels
        · rw [if_pos hn, Nat.testBit_mod_two_pow, decide_eq_true he, Bool.true_and,
            decide_eq_true (show t + 1 < f ∧ i + (t + 1) < priv.nchannels ∧ i + (t + 1) < lim
              from ⟨ht, hn, hlim⟩), Bool.true_and]
        · rw [if_neg hn, Nat.zero_testBit,
            decide_eq_false (show ¬ (t + 1 < f ∧ i + (t + 1) < priv.nchannels ∧
              i + (t + 1) < lim) from fun h => hn h.2.1), Bool.false_and]
      · by_cases hn : i + t < priv.nchannels
        · rw [if_pos ⟨by omega, hn⟩, Nat.testBit_shiftRight, Nat.add_comm 6 e,
            decide_eq_true (show t < f ∧ i + t < priv.nchannels ∧ i + t < lim
              from ⟨by omega, hn, by omega⟩), Bool.true_and]
        · rw [if_neg (fun h => hn h.2), Nat.zero_testBit,
            decide_eq_false (show ¬ (t < f ∧ i + t < priv.nchannels ∧ i + t < lim)
              from fun h => hn h.2.1), Bool.false_and]

theorem slot_with_spill_eq (priv : stm32_dev_s) (k i t : Nat) (hk : i + t = k)
    (hf : first_in_register k ↔ t = 0) :
    ((if i + t < priv.nchannels then chan priv (i + t) % 2 ^ 6 else 0) |||
      (if 1 ≤ t ∧ i + t - 1 < priv.nchannels then chan priv (i + t - 1) >>> 6 else 0)) =
      slot_with_spill priv k := by
  subst hk
  unfold slot_with_spill
  congr 1
  apply if_congr _ rfl rfl
  rw [hf]
  constructor <;> rintro ⟨a, b⟩ <;> exact ⟨by omega, b⟩

theorem slot_with_spill_clean (priv : stm32_dev_s) (k : Nat) (hk : k < priv.nchannels)
    (h : first_in_register k ∨ chan priv (k - 1) < 2 ^ 6) :
    slot_with_spill priv k = chan priv k % 2 ^ 6 := by
  unfold slot_with_spill
  rw [if_pos hk]
  by_cases hc : ¬ first_in_register k ∧ k - 1 < priv.nchannels
  · rw [if_pos hc]
    rcases h with h | h
    · exact absurd h hc.1
    · rw [Nat.shiftRight_eq_div_pow, Nat.div_eq_of_lt h, Nat.or_zero]
  · rw [if_neg hc, Nat.or_zero]

/-- C14, the claim as stated fails: with the two identifiers 64 and 0 listed,
`adc_setup` leaves 1 in the slot of position 1, not `0 mod 64`; the identifier
64 of position 0 has put its bit 6 there. -/
theorem adc_setup_identifier_spills :
    adc_setup stm32l4x6 demoConfig demoHw 2 OK spillState = .ret (OK, spillSetup) ∧
      chan spillState.priv 0 = 64 ∧ chan spillState.priv 1 % 2 ^ 6 = 0 ∧
      sqr_slot spillSetup.regs 0 = 0 ∧ sqr_slot spillSetup.regs 1 = 1 := by
  decide

/-- C14 as amended: on a block whose four sequence registers are zero after
reset, with `nchannels` in 1..16 and arbitrary byte identifiers, `adc_setup`
returns `OK` and leaves the count field of `SQR1` at `nchannels - 1` and in
the slot of every position `k` the low six bits of the identifier listed at
`k` (nothing when `k` is past the list) ORed with the two top bits of the
identifier listed at `k - 1` when that position is in the same register.  So
the slot of a listed position holds `chanlist[k] mod 64` whenever `k` is the
first position of its register or the identifier before it is below 64. -/
theorem adc_setup_sequence_encoding_bytes (d : Defs) (cfg : Config) (hw : Hw) (fuel : Nat)
    (s : State) (hn1 : 1 ≤ s.priv.nchannels) (hn16 : s.priv.nchannels ≤ 16)
    (hL : d.ADC_SQR1_L_SHIFT + 4 ≤ 6)
    (hz1 : hw.reset.SQR1 = 0) (hz2 : hw.reset.SQR2 = 0)
    (hz3 : hw.reset.SQR3 = 0) (hz4 : hw.reset.SQR4 = 0)
    (hcal : hw.calibrates d fuel) (hrdy : hw.gets_ready d fuel) :
    ∃ s', adc_setup d cfg hw fuel OK s = .ret (OK, s') ∧
      sqr_count d s'.regs = s.priv.nchannels - 1 ∧
      (∀ k, k < 16 → sqr_slot s'.regs k = slot_with_spill s.priv k) ∧
      (∀ k, k < s.priv.nchannels → (first_in_register k ∨ chan s.priv (k - 1) < 2 ^ 6) →
        sqr_slot s'.regs k = chan s.priv k % 2 ^ 6) := by
  obtain ⟨s', hret, _, hr⟩ := adc_setup_ret d cfg hw fuel s hn16 hcal hrdy
  have h1 : s'.regs.SQR1 = (setup_program d hw s).regs.SQR1 := by rw [hr]
  have h2 : s'.regs.SQR2 = (setup_program d hw s).regs.SQR2 := by rw [hr]
  have h3 : s'.regs.SQR3 = (setup_program d hw s).regs.SQR3 := by rw [hr]
  have h4 : s'.regs.SQR4 = (setup_program d hw s).regs.SQR4 := by rw [hr]
  rw [setup_program_SQR1, hz1] at h1
  rw [setup_program_SQR2, hz2] at h2
  rw [setup_program_SQR3, hz3] at h3
  rw [setup_program_SQR4, hz4] at h4
  have hu0 : u32 0 = 0 := rfl
  have hx0 : ∀ b : Nat, 0 ≤ b → (0 : Nat).testBit b = false := fun b _ => Nat.zero_testBit b
  have hslots : ∀ k, k < 16 → sqr_slot s'.regs k = slot_with_spill s.priv k := by
    intro k hk
    unfold sqr_slot
    by_cases hk4 : k < 4
    · rw [if_pos hk4, h1, hu0,
        slot_u32_loop_bytes s.priv 4 4 0 6 k _
          (fun b hb => count_word_high d s.priv.nchannels hn1 hn16 hL b hb)
          (by omega) hk4 (by omega)]
      exact slot_with_spill_eq s.priv k 0 k (by omega) (by unfold first_in_register; omega)
    · by_cases hk9 : k < 9
      · rw [if_neg hk4, if_pos hk9, h2, hu0, ← Nat.or_zero (sqr_loop s.priv 9 5 4 0 0),
          slot_u32_loop_bytes s.priv 9 5 4 0 (k - 4) 0 hx0 (by omega) (by omega) (by omega)]
        exact slot_with_spill_eq s.priv k 4 (k - 4) (by omega)
          (by unfold first_in_register; omega)
      · by_cases hk14 : k < 14
        · rw [if_neg hk4, if_neg hk9, if_pos hk14, h3, hu0,
            ← Nat.or_zero (sqr_loop s.priv 14 5 9 0 0),
            slot_u32_loop_bytes s.priv 14 5 9 0 (k - 9) 0 hx0 (by omega) (by omega) (by omega)]
          exact slot_with_spill_eq s.priv k 9 (k - 9) (by omega)
            (by unfold first_in_register; omega)
        · rw [if_neg hk4, if_neg hk9, if_neg hk14, h4, hu0,
            ← Nat.or_zero (sqr_loop s.priv 16 2 14 0 0),
            slot_u32_loop_bytes s.priv 16 2 14 0 (k - 14) 0 hx0 (by omega) (by omega)
              (by omega)]
          exact slot_with_spill_eq s.priv k 14 (k - 14) (by omega)
            (by unfold first_in_register; omega)
  refine ⟨s', hret, ?_, hslots, ?_⟩
  · rw [sqr_count, h1, hu0]
    exact count_field d s.priv hn1 hn16 hL
  · intro k hk hclean
    rw [hslots k (by omega)]
    exact slot_with_spill_clean s.priv k hk hclean

/-- C14 as amended, on the block with the identifiers 64 and 0. -/
theorem adc_setup_sequence_encoding_bytes_witness :
    ∃ s', adc_setup stm32l4x6 demoConfig demoHw 2 OK spillState = .ret (OK, s') ∧
      sqr_count stm32l4x6 s'.regs = spillState.priv.nchannels - 1 ∧
      (∀ k, k < 16 → sqr_slot s'.regs k = slot_with_spill spillState.priv k) ∧
      (∀ k, k < spillState.priv.nchannels →
        (first_in_register k ∨ chan spillState.priv (k - 1) < 2 ^ 6) →
        sqr_slot s'.regs k = chan spillState.priv k % 2 ^ 6) :=
  adc_setup_sequence_encoding_bytes stm32l4x6 demoConfig demoHw 2 spillState (by decide)
    (by decide) (by decide) rfl rfl rfl rfl demoHw_calibrates demoHw_gets_ready

end Stm32Adc
